import Mathlib

/-!
Verification development for the CloudGather repository.

Each section embeds one part of the source (shallow embedding: Python
functions become Lean functions over explicit state) and proves the
properties stated about it.  Paths and timestamps are modelled as `String`
and `Nat` respectively; ISO-8601 timestamp strings compare in the same
order as the instants they denote, so `Nat` with `≤` is an order-faithful
model of the `delete_at <= ?` comparisons done in SQL.
-/

namespace CloudGather

/-!
## Smart-protection state (`src/core/strm_protection.py`)

`StrmProtectionManager.protected` is a Python dict mapping the relative
path of a tracked stub file to its consecutive-confirmation count.  We
embed the dict as an association list whose keys are unique (`PMap.WF`),
which is an invariant of every Python dict.  `_to_relative` /
`_to_absolute` round-trip for every path under the target directory (and
every orphan comes from `rglob` of the target directory), so paths are
modelled as opaque strings and the two conversions as the identity.
The iteration over the Python set `strm_to_delete` is embedded as a fold
over a duplicate-free enumeration of the finite set; the result does not
depend on the enumeration order because each element is visited once.
-/

abbrev PMap := List (String × Nat)

/-- Python `dict.get(key, 0)`: value of the first entry with the given key,
`0` when the key is absent. -/
def PMap.get : PMap → String → Nat
  | [], _ => 0
  | e :: t, p => if e.1 = p then e.2 else PMap.get t p

/-- Python `key in dict`. -/
def PMap.tracked : PMap → String → Bool
  | [], _ => false
  | e :: t, p => decide (e.1 = p) || PMap.tracked t p

/-- Python `dict[key] = c`: replace the entry if the key is present,
otherwise append a new entry. -/
def PMap.setc : PMap → String → Nat → PMap
  | [], p, c => [(p, c)]
  | e :: t, p, c => if e.1 = p then (p, c) :: t else e :: PMap.setc t p c

/-- Deleting from the dict every entry whose key lies in `s` (used both for
the "returned files" reset of step 1 of `process` and for the removal of
the ready set in step 4). -/
def PMap.dropKeys (m : PMap) (s : Finset String) : PMap :=
  m.filter (fun e => decide (e.1 ∉ s))

/-- The loop `for file_path in strm_to_delete: protected[rel] = get(rel,0)+1`
(strm_protection.py lines 125-128), folded over an enumeration of the set. -/
def PMap.incrList (m : PMap) (l : List String) : PMap :=
  l.foldl (fun acc p => PMap.setc acc p (PMap.get acc p + 1)) m

/-- `ready_rel = {rel for rel, count in protected.items() if count >= grace_scans}`
(strm_protection.py lines 131-134). -/
def PMap.readySet (m : PMap) (grace : Nat) : Finset String :=
  ((m.filter (fun e => decide (grace ≤ e.2))).map Prod.fst).toFinset

/-- Keys are unique, as in every Python dict. -/
def PMap.WF (m : PMap) : Prop := (m.map Prod.fst).Nodup

instance (m : PMap) : Decidable (PMap.WF m) :=
  inferInstanceAs (Decidable ((m.map Prod.fst).Nodup))

/-- `StrmProtectionManager.process` (strm_protection.py lines 87-154):
reset returned files, bypass below the threshold, otherwise count each
orphan and release exactly the entries whose count reached `grace_scans`.
Returns the updated counter map and the set of files to delete now. -/
def process (threshold graceScans : Nat) (m : PMap)
    (strmToDelete strmPresent : Finset String) : PMap × Finset String :=
  let m1 := PMap.dropKeys m strmPresent
  if strmToDelete.card < threshold then
    (m1, strmToDelete)
  else
    let m2 := PMap.incrList m1 (strmToDelete.sort (fun a b => a ≤ b))
    let ready := PMap.readySet m2 graceScans
    (PMap.dropKeys m2 ready, ready)

/-! ### Association-list lemmas -/

theorem PMap.tracked_eq_mem_keys (m : PMap) (p : String) :
    PMap.tracked m p = true ↔ p ∈ m.map Prod.fst := by
  induction m with
  | nil => simp [PMap.tracked]
  | cons e t ih =>
      simp only [PMap.tracked, List.map_cons, List.mem_cons, Bool.or_eq_true,
        decide_eq_true_eq, ih]
      constructor
      · rintro (h | h)
        · exact Or.inl h.symm
        · exact Or.inr h
      · rintro (h | h)
        · exact Or.inl h.symm
        · exact Or.inr h

theorem PMap.get_setc_self (m : PMap) (p : String) (c : Nat) :
    PMap.get (PMap.setc m p c) p = c := by
  induction m with
  | nil => simp [PMap.setc, PMap.get]
  | cons e t ih =>
      by_cases h : e.1 = p
      · simp [PMap.setc, h, PMap.get]
      · simp [PMap.setc, h, PMap.get, ih]

theorem PMap.get_setc_ne (m : PMap) (p q : String) (c : Nat) (h : q ≠ p) :
    PMap.get (PMap.setc m p c) q = PMap.get m q := by
  induction m with
  | nil => simp [PMap.setc, PMap.get, Ne.symm h]
  | cons e t ih =>
      by_cases he : e.1 = p
      · subst he
        simp [PMap.setc, PMap.get, Ne.symm h]
      · have hsetc : PMap.setc (e :: t) p c = e :: PMap.setc t p c := by
          simp [PMap.setc, he]
        by_cases hq : e.1 = q
        · rw [hsetc]
          simp [PMap.get, hq]
        · rw [hsetc]
          simp [PMap.get, hq, ih]

theorem PMap.tracked_setc (m : PMap) (p q : String) (c : Nat) :
    PMap.tracked (PMap.setc m p c) q = (decide (q = p) || PMap.tracked m q) := by
  induction m with
  | nil => simp [PMap.setc, PMap.tracked, eq_comm]
  | cons e t ih =>
      by_cases he : e.1 = p
      · subst he
        by_cases hq : q = e.1
        · simp [PMap.setc, PMap.tracked, hq]
        · have hq2 : ¬e.1 = q := fun hh => hq hh.symm
          simp [PMap.setc, PMap.tracked, hq, hq2]
      · simp [PMap.setc, he, PMap.tracked, ih, Bool.or_left_comm]

theorem PMap.keys_setc (m : PMap) (p : String) (c : Nat) :
    (PMap.setc m p c).map Prod.fst =
      if PMap.tracked m p then m.map Prod.fst else m.map Prod.fst ++ [p] := by
  induction m with
  | nil => simp [PMap.setc, PMap.tracked]
  | cons e t ih =>
      by_cases he : e.1 = p
      · simp [PMap.setc, he, PMap.tracked]
      · by_cases ht : PMap.tracked t p
        · simp [PMap.setc, he, PMap.tracked, ih, ht]
        · simp [PMap.setc, he, PMap.tracked, ih, ht]

theorem PMap.get_dropKeys (m : PMap) (s : Finset String) (p : String) :
    PMap.get (PMap.dropKeys m s) p = if p ∈ s then 0 else PMap.get m p := by
  induction m with
  | nil => simp [PMap.dropKeys, PMap.get]
  | cons e t ih =>
      by_cases hs : e.1 ∈ s
      · have hstep : PMap.dropKeys (e :: t) s = PMap.dropKeys t s := by
          simp [PMap.dropKeys, List.filter_cons, hs]
        rw [hstep, ih]
        by_cases hp : e.1 = p
        · subst hp
          simp [hs]
        · simp [PMap.get, hp]
      · have hstep : PMap.dropKeys (e :: t) s = e :: PMap.dropKeys t s := by
          simp [PMap.dropKeys, List.filter_cons, hs]
        rw [hstep]
        by_cases hp : e.1 = p
        · subst hp
          simp [PMap.get, hs]
        · simp [PMap.get, hp, ih]

theorem PMap.tracked_dropKeys (m : PMap) (s : Finset String) (p : String) :
    PMap.tracked (PMap.dropKeys m s) p = (PMap.tracked m p && decide (p ∉ s)) := by
  induction m with
  | nil => simp [PMap.dropKeys, PMap.tracked]
  | cons e t ih =>
      by_cases hs : e.1 ∈ s
      · have hstep : PMap.dropKeys (e :: t) s = PMap.dropKeys t s := by
          simp [PMap.dropKeys, List.filter_cons, hs]
        rw [hstep, ih]
        by_cases hp : e.1 = p
        · subst hp
          simp [PMap.tracked, hs]
        · simp [PMap.tracked, hp]
      · have hstep : PMap.dropKeys (e :: t) s = e :: PMap.dropKeys t s := by
          simp [PMap.dropKeys, List.filter_cons, hs]
        rw [hstep]
        by_cases hp : e.1 = p
        · subst hp
          simp [PMap.tracked, hs]
        · simp [PMap.tracked, hp, ih]

theorem PMap.get_incrList (m : PMap) (l : List String) (hl : l.Nodup) (p : String) :
    PMap.get (PMap.incrList m l) p =
      if p ∈ l then PMap.get m p + 1 else PMap.get m p := by
  induction l generalizing m with
  | nil => simp [PMap.incrList]
  | cons q t ih =>
      have hq : q ∉ t := (List.nodup_cons.mp hl).1
      have ht : t.Nodup := (List.nodup_cons.mp hl).2
      have hstep : PMap.incrList m (q :: t) =
          PMap.incrList (PMap.setc m q (PMap.get m q + 1)) t := rfl
      rw [hstep, ih _ ht]
      by_cases hp : p = q
      · subst hp
        simp [hq, PMap.get_setc_self]
      · by_cases hpt : p ∈ t
        · simp [hpt, hp, PMap.get_setc_ne _ _ _ _ hp]
        · simp [hpt, hp, PMap.get_setc_ne _ _ _ _ hp]

theorem PMap.tracked_incrList (m : PMap) (l : List String) (p : String) :
    PMap.tracked (PMap.incrList m l) p = (decide (p ∈ l) || PMap.tracked m p) := by
  induction l generalizing m with
  | nil => simp [PMap.incrList]
  | cons q t ih =>
      have hstep : PMap.incrList m (q :: t) =
          PMap.incrList (PMap.setc m q (PMap.get m q + 1)) t := rfl
      rw [hstep, ih]
      by_cases hp : p = q
      · subst hp
        simp [PMap.tracked_setc]
      · simp [PMap.tracked_setc, hp, List.mem_cons, Bool.or_left_comm]

theorem PMap.WF_dropKeys (m : PMap) (s : Finset String) (h : PMap.WF m) :
    PMap.WF (PMap.dropKeys m s) := by
  have hsub : ((PMap.dropKeys m s).map Prod.fst).Sublist (m.map Prod.fst) :=
    (List.filter_sublist m).map Prod.fst
  exact h.sublist hsub

theorem PMap.WF_setc (m : PMap) (p : String) (c : Nat) (h : PMap.WF m) :
    PMap.WF (PMap.setc m p c) := by
  unfold PMap.WF at h ⊢
  rw [PMap.keys_setc]
  by_cases ht : PMap.tracked m p = true
  · simpa [ht] using h
  · rw [if_neg ht, List.nodup_append]
    refine ⟨h, List.nodup_singleton p, ?_⟩
    intro a ha hb
    have hab : a = p := by simpa using hb
    subst hab
    exact ht ((PMap.tracked_eq_mem_keys m a).mpr ha)

theorem PMap.WF_incrList (m : PMap) (l : List String) (h : PMap.WF m) :
    PMap.WF (PMap.incrList m l) := by
  induction l generalizing m with
  | nil => simpa [PMap.incrList] using h
  | cons q t ih =>
      have hstep : PMap.incrList m (q :: t) =
          PMap.incrList (PMap.setc m q (PMap.get m q + 1)) t := rfl
      rw [hstep]
      exact ih _ (PMap.WF_setc _ _ _ h)

theorem PMap.get_eq_of_mem (m : PMap) (e : String × Nat) (hw : PMap.WF m)
    (he : e ∈ m) : PMap.get m e.1 = e.2 := by
  induction m with
  | nil => simp at he
  | cons f t ih =>
      rcases List.mem_cons.mp he with hh | hh
      · subst hh
        simp [PMap.get]
      · have hf : f.1 ≠ e.1 := by
          intro hfe
          exact (List.nodup_cons.mp hw).1
            (hfe ▸ List.mem_map_of_mem Prod.fst hh)
        simp [PMap.get, hf, ih (List.nodup_cons.mp hw).2 hh]

theorem PMap.mem_of_tracked (m : PMap) (p : String)
    (h : PMap.tracked m p = true) : (p, PMap.get m p) ∈ m := by
  induction m with
  | nil => simp [PMap.tracked] at h
  | cons e t ih =>
      by_cases hp : e.1 = p
      · subst hp
        simp [PMap.get]
      · simp [PMap.tracked, hp] at h
        simp [PMap.get, hp]
        exact Or.inr (ih h)

theorem PMap.mem_readySet (m : PMap) (g : Nat) (p : String) (hw : PMap.WF m) :
    p ∈ PMap.readySet m g ↔ PMap.tracked m p = true ∧ g ≤ PMap.get m p := by
  unfold PMap.readySet
  constructor
  · intro h
    simp only [List.mem_toFinset, List.mem_map] at h
    obtain ⟨e, he, hfst⟩ := h
    have hem : e ∈ m := List.mem_filter.mp he |>.1
    have hcnt : g ≤ e.2 := by simpa using List.mem_filter.mp he |>.2
    subst hfst
    refine ⟨(PMap.tracked_eq_mem_keys m e.1).mpr (List.mem_map_of_mem Prod.fst hem), ?_⟩
    rw [PMap.get_eq_of_mem m e hw hem]
    exact hcnt
  · intro ⟨htr, hg⟩
    simp only [List.mem_toFinset, List.mem_map]
    refine ⟨(p, PMap.get m p), List.mem_filter.mpr ⟨PMap.mem_of_tracked m p htr, by simpa using hg⟩, rfl⟩

/-! ### Branch characterizations of `process` -/

theorem PMap.mem_dropKeys (m : PMap) (s : Finset String) (e : String × Nat) :
    e ∈ PMap.dropKeys m s ↔ e ∈ m ∧ e.1 ∉ s := by
  unfold PMap.dropKeys
  rw [List.mem_filter]
  simp

theorem PMap.mem_readySet_of_mem (m : PMap) (g : Nat) (e : String × Nat)
    (he : e ∈ m) (hg : g ≤ e.2) : e.1 ∈ PMap.readySet m g := by
  unfold PMap.readySet
  simp only [List.mem_toFinset, List.mem_map]
  exact ⟨e, List.mem_filter.mpr ⟨he, by simpa using hg⟩, rfl⟩

theorem process_bypass (threshold g : Nat) (m : PMap) (o pres : Finset String)
    (h : o.card < threshold) :
    process threshold g m o pres = (PMap.dropKeys m pres, o) := by
  unfold process
  rw [if_pos h]

theorem process_protected_snd_mem (threshold g : Nat) (m : PMap)
    (o pres : Finset String) (hw : PMap.WF m) (h : threshold ≤ o.card) (p : String) :
    p ∈ (process threshold g m o pres).2 ↔
      ((p ∈ o ∨ (PMap.tracked m p = true ∧ p ∉ pres)) ∧
       g ≤ (if p ∈ o then (if p ∈ pres then 0 else PMap.get m p) + 1
            else if p ∈ pres then 0 else PMap.get m p)) := by
  have hnlt : ¬o.card < threshold := not_lt.mpr h
  have hsortnd : (o.sort (fun a b => a ≤ b)).Nodup := Finset.sort_nodup _ o
  have hw2 : PMap.WF (PMap.incrList (PMap.dropKeys m pres) (o.sort (fun a b => a ≤ b))) :=
    PMap.WF_incrList _ _ (PMap.WF_dropKeys m pres hw)
  have hsnd : (process threshold g m o pres).2 =
      PMap.readySet (PMap.incrList (PMap.dropKeys m pres)
        (o.sort (fun a b => a ≤ b))) g := by
    unfold process
    rw [if_neg hnlt]
  rw [hsnd, PMap.mem_readySet _ _ _ hw2, PMap.tracked_incrList,
    PMap.get_incrList _ _ hsortnd, PMap.tracked_dropKeys, PMap.get_dropKeys]
  by_cases ho : p ∈ o
  · simp [ho, Finset.mem_sort]
  · simp [ho, Finset.mem_sort]

theorem process_protected_fst_get (threshold g : Nat) (m : PMap)
    (o pres : Finset String) (h : threshold ≤ o.card) (p : String) :
    PMap.get (process threshold g m o pres).1 p =
      if p ∈ (process threshold g m o pres).2 then 0
      else if p ∈ o then (if p ∈ pres then 0 else PMap.get m p) + 1
      else if p ∈ pres then 0 else PMap.get m p := by
  have hnlt : ¬o.card < threshold := not_lt.mpr h
  have hsortnd : (o.sort (fun a b => a ≤ b)).Nodup := Finset.sort_nodup _ o
  have hget2 : ∀ q, PMap.get (PMap.incrList (PMap.dropKeys m pres)
      (o.sort (fun a b => a ≤ b))) q =
      if q ∈ o then (if q ∈ pres then 0 else PMap.get m q) + 1
      else if q ∈ pres then 0 else PMap.get m q := by
    intro q
    rw [PMap.get_incrList _ _ hsortnd, PMap.get_dropKeys]
    by_cases ho : q ∈ o
    · simp [ho, Finset.mem_sort]
    · simp [ho, Finset.mem_sort]
  have hfst : (process threshold g m o pres).1 =
      PMap.dropKeys (PMap.incrList (PMap.dropKeys m pres)
        (o.sort (fun a b => a ≤ b)))
        (PMap.readySet (PMap.incrList (PMap.dropKeys m pres)
          (o.sort (fun a b => a ≤ b))) g) := by
    unfold process
    rw [if_neg hnlt]
  have hsnd : (process threshold g m o pres).2 =
      PMap.readySet (PMap.incrList (PMap.dropKeys m pres)
        (o.sort (fun a b => a ≤ b))) g := by
    unfold process
    rw [if_neg hnlt]
  rw [hfst, PMap.get_dropKeys, hget2 p, ← hsnd]

/-- The resulting counter map of `process` keeps every count strictly below
`grace_scans`, provided the incoming map already did (entries at or above the
bar are exactly the released ones). -/
theorem process_fst_counts_lt (threshold g : Nat) (m : PMap)
    (o pres : Finset String) (hb : ∀ e ∈ m, e.2 < g) :
    ∀ e ∈ (process threshold g m o pres).1, e.2 < g := by
  intro e he
  by_cases hlt : o.card < threshold
  · rw [process_bypass threshold g m o pres hlt] at he
    exact hb e ((PMap.mem_dropKeys m pres e).mp he).1
  · have hfst : (process threshold g m o pres).1 =
        PMap.dropKeys (PMap.incrList (PMap.dropKeys m pres)
          (o.sort (fun a b => a ≤ b)))
          (PMap.readySet (PMap.incrList (PMap.dropKeys m pres)
            (o.sort (fun a b => a ≤ b))) g) := by
      unfold process
      rw [if_neg hlt]
    rw [hfst, PMap.mem_dropKeys] at he
    by_contra hge
    exact he.2 (PMap.mem_readySet_of_mem _ g e he.1 (not_lt.mp hge))

theorem process_WF_fst (threshold g : Nat) (m : PMap) (o pres : Finset String)
    (hw : PMap.WF m) : PMap.WF (process threshold g m o pres).1 := by
  by_cases hlt : o.card < threshold
  · rw [process_bypass threshold g m o pres hlt]
    exact PMap.WF_dropKeys m pres hw
  · have hfst : (process threshold g m o pres).1 =
        PMap.dropKeys (PMap.incrList (PMap.dropKeys m pres)
          (o.sort (fun a b => a ≤ b)))
          (PMap.readySet (PMap.incrList (PMap.dropKeys m pres)
            (o.sort (fun a b => a ≤ b))) g) := by
      unfold process
      rw [if_neg hlt]
    rw [hfst]
    exact PMap.WF_dropKeys _ _ (PMap.WF_incrList _ _ (PMap.WF_dropKeys m pres hw))

/-! ### Claim C4: the per-scan update of the smart-protection gate -/

/-- C4 (confirmed). `StrmProtectionManager.process(orphans, present)` behaves as
specified: first every tracked path in `present` is dropped from the counter
map; then, if the orphan set has fewer than `threshold` elements, the orphan
set is returned unchanged and no counters are incremented for it; otherwise
each orphan's counter is incremented (created at `1`), and exactly the set of
paths whose counter has reached `graceScans` is removed from the map and
returned.  The characterization below states the returned set and the value of
every counter of the resulting map in both branches. -/
theorem process_per_scan_spec (threshold g : Nat) (m : PMap)
    (orphans present : Finset String) (hw : PMap.WF m) :
    (orphans.card < threshold →
        (process threshold g m orphans present).2 = orphans ∧
        ∀ p, PMap.get (process threshold g m orphans present).1 p =
          if p ∈ present then 0 else PMap.get m p) ∧
    (threshold ≤ orphans.card →
        (∀ p, p ∈ (process threshold g m orphans present).2 ↔
            ((p ∈ orphans ∨ (PMap.tracked m p = true ∧ p ∉ present)) ∧
             g ≤ (if p ∈ orphans then (if p ∈ present then 0 else PMap.get m p) + 1
                  else if p ∈ present then 0 else PMap.get m p))) ∧
        (∀ p, PMap.get (process threshold g m orphans present).1 p =
            if p ∈ (process threshold g m orphans present).2 then 0
            else if p ∈ orphans then (if p ∈ present then 0 else PMap.get m p) + 1
            else if p ∈ present then 0 else PMap.get m p)) := by
  constructor
  · intro hlt
    rw [process_bypass threshold g m orphans present hlt]
    exact ⟨rfl, fun p => PMap.get_dropKeys m present p⟩
  · intro hge
    exact ⟨fun p => process_protected_snd_mem threshold g m orphans present hw hge p,
      fun p => process_protected_fst_get threshold g m orphans present hge p⟩

/-- Witness for `process_per_scan_spec` at concrete inputs: counters
`[("a", 2), ("b", 1)]`, orphans `{"a", "c"}`, present `{"b"}`, threshold `2`,
grace `3`: the path `"a"` (previous count `2`, incremented to `3`) is released. -/
theorem process_per_scan_spec_witness :
    PMap.WF [("a", 2), ("b", 1)] ∧
    2 ≤ ({"a", "c"} : Finset String).card ∧
    ("a" ∈ (process 2 3 [("a", 2), ("b", 1)] {"a", "c"} {"b"}).2 ↔
      (("a" ∈ ({"a", "c"} : Finset String) ∨
          (PMap.tracked [("a", 2), ("b", 1)] "a" = true ∧ "a" ∉ ({"b"} : Finset String))) ∧
       3 ≤ (if "a" ∈ ({"a", "c"} : Finset String) then
              (if "a" ∈ ({"b"} : Finset String) then 0
               else PMap.get [("a", 2), ("b", 1)] "a") + 1
            else if "a" ∈ ({"b"} : Finset String) then 0
            else PMap.get [("a", 2), ("b", 1)] "a"))) :=
  ⟨by decide, by decide,
    ((process_per_scan_spec 2 3 [("a", 2), ("b", 1)] {"a", "c"} {"b"}
      (by decide)).2 (by decide)).1 "a"⟩

/-!
## Stub-generator scan model (`src/core/strm_generator.py`)

One run of `StrmGenerator.run` for a stub task with orphan deletion
(`sync_server`) and smart-protection enabled, restricted to steps 5-7:
`existing` is collected from the target tree before stubs are written
(line 111), every generated stub afterwards exists on disk (skipped stubs
already did, created ones were just written, both are returned and added
to `generated_strm`), and `_sync_deletions` (lines 372-398) removes the
stale stubs that the protection gate releases.  `disk` is the set of
`.strm` files below the target root; failed unlinks are not modelled
(the ideal filesystem always succeeds). -/
structure ScanState where
  disk : Finset String
  pmap : PMap
  deriving DecidableEq

/-- One scan: diff, early return on an empty orphan set (line 382), else
gate through `StrmProtectionManager.process` and unlink the released set.
Returns the new state and the set of stubs unlinked in this scan. -/
def syncDeletions (threshold grace : Nat) (st : ScanState)
    (generated : Finset String) : ScanState × Finset String :=
  let existing := st.disk
  let orphans := existing \ generated
  let disk1 := st.disk ∪ generated
  if orphans = ∅ then (⟨disk1, st.pmap⟩, ∅)
  else
    let pr := process threshold grace st.pmap orphans generated
    (⟨disk1 \ pr.2, pr.1⟩, pr.2)

/-- Iterated scans, one per element of `gens` (the per-scan generated sets). -/
def runScans (threshold grace : Nat) : ScanState → List (Finset String) → ScanState
  | st, [] => st
  | st, g :: rest => runScans threshold grace (syncDeletions threshold grace st g).1 rest

/-- State before scan `n`, starting from stub set `d0` and a fresh
protection state (`_load_state` with no state file leaves the counter map
empty). -/
def stateAt (threshold grace : Nat) (d0 : Finset String)
    (gens : List (Finset String)) (n : Nat) : ScanState :=
  runScans threshold grace ⟨d0, []⟩ (gens.take n)

/-- The orphan set computed at scan `n`. -/
def orphansAt (threshold grace : Nat) (d0 : Finset String)
    (gens : List (Finset String)) (n : Nat) : Finset String :=
  (stateAt threshold grace d0 gens n).disk \ gens.getD n ∅

/-- The set of stubs unlinked at scan `n`. -/
def deletedAt (threshold grace : Nat) (d0 : Finset String)
    (gens : List (Finset String)) (n : Nat) : Finset String :=
  (syncDeletions threshold grace (stateAt threshold grace d0 gens n) (gens.getD n ∅)).2

/-! ### Claim C10: empty orphan set leaves the protection state untouched -/

/-- C10 (confirmed).  In a scan whose orphan set is empty, `_sync_deletions`
returns before invoking the protection manager, so the counter map is left
entirely unchanged — in particular counters of previously-missing paths that
have reappeared in the generated set are not cleared. -/
theorem syncDeletions_empty_orphans_frame (threshold grace : Nat) (st : ScanState)
    (generated : Finset String) (h : st.disk \ generated = ∅) :
    (syncDeletions threshold grace st generated).1.pmap = st.pmap ∧
    (syncDeletions threshold grace st generated).2 = ∅ := by
  unfold syncDeletions
  simp [h]

/-- Witness for `syncDeletions_empty_orphans_frame`: the tracked path `"b"`
reappears in the generated set, the orphan set is empty, and its counter
survives with value 2 instead of being reset. -/
theorem syncDeletions_empty_orphans_frame_witness :
    (({"a"} : Finset String) \ ({"a", "b"} : Finset String) = ∅) ∧
    (syncDeletions 1 3 ⟨{"a"}, [("b", 2)]⟩ {"a", "b"}).1.pmap = [("b", 2)] := by
  refine ⟨by decide, ?_⟩
  have h := syncDeletions_empty_orphans_frame 1 3 ⟨{"a"}, [("b", 2)]⟩ {"a", "b"} (by decide)
  exact h.1

/-! ### Claim C3: confirmation gating of orphan deletion -/

theorem PMap.get_eq_zero_of_not_tracked (m : PMap) (p : String)
    (h : PMap.tracked m p = false) : PMap.get m p = 0 := by
  induction m with
  | nil => simp [PMap.get]
  | cons e t ih =>
      simp only [PMap.tracked, Bool.or_eq_false_iff, decide_eq_false_iff_not] at h
      simp [PMap.get, h.1, ih h.2]

theorem runScans_append (T G : Nat) (st : ScanState) (l1 l2 : List (Finset String)) :
    runScans T G st (l1 ++ l2) = runScans T G (runScans T G st l1) l2 := by
  induction l1 generalizing st with
  | nil => rfl
  | cons g rest ih => simp [runScans, ih]

theorem stateAt_succ_of_lt (T G : Nat) (d0 : Finset String)
    (gens : List (Finset String)) (n : Nat) (h : n < gens.length) :
    stateAt T G d0 gens (n + 1) =
      (syncDeletions T G (stateAt T G d0 gens n) (gens.getD n ∅)).1 := by
  unfold stateAt
  rw [List.take_succ, runScans_append]
  have hget : gens[n]?.toList = [gens[n]] := by
    rw [List.getElem?_eq_getElem h]
    rfl
  rw [hget]
  have hgetD : gens.getD n ∅ = gens[n] := List.getD_eq_getElem gens ∅ h
  rw [hgetD]
  rfl

theorem stateAt_succ_of_ge (T G : Nat) (d0 : Finset String)
    (gens : List (Finset String)) (n : Nat) (h : gens.length ≤ n) :
    stateAt T G d0 gens (n + 1) = stateAt T G d0 gens n := by
  unfold stateAt
  rw [List.take_of_length_le h, List.take_of_length_le (le_trans h (Nat.le_succ n))]

theorem syncDeletions_pmap (T G : Nat) (st : ScanState) (gen : Finset String) :
    (syncDeletions T G st gen).1.pmap =
      if st.disk \ gen = ∅ then st.pmap
      else (process T G st.pmap (st.disk \ gen) gen).1 := by
  unfold syncDeletions
  by_cases h : st.disk \ gen = ∅ <;> simp [h]

theorem syncDeletions_snd (T G : Nat) (st : ScanState) (gen : Finset String) :
    (syncDeletions T G st gen).2 =
      if st.disk \ gen = ∅ then ∅
      else (process T G st.pmap (st.disk \ gen) gen).2 := by
  unfold syncDeletions
  by_cases h : st.disk \ gen = ∅ <;> simp [h]

/-- Trace invariant of the scan model: the counter map has unique keys, every
count is strictly below `grace_scans`, and a count of `c` testifies to `c`
earlier scans at which the path was an orphan while the orphan set met the
threshold. -/
theorem scanTrace_invariant (T G : Nat) (d0 : Finset String)
    (gens : List (Finset String)) (n : Nat) :
    PMap.WF (stateAt T G d0 gens n).pmap ∧
    (∀ e ∈ (stateAt T G d0 gens n).pmap, e.2 < G) ∧
    (∀ p : String, ∃ S : Finset Nat,
      S.card = PMap.get (stateAt T G d0 gens n).pmap p ∧
      ∀ i ∈ S, i < n ∧ p ∈ orphansAt T G d0 gens i ∧
        T ≤ (orphansAt T G d0 gens i).card) := by
  induction n with
  | zero =>
      refine ⟨?_, ?_, ?_⟩
      · simp [stateAt, runScans, PMap.WF]
      · simp [stateAt, runScans]
      · intro p
        exact ⟨∅, by simp [stateAt, runScans, PMap.get], by simp⟩
  | succ n ih =>
      obtain ⟨hwf, hcnt, hS⟩ := ih
      by_cases hn : n < gens.length
      · rw [stateAt_succ_of_lt T G d0 gens n hn, syncDeletions_pmap]
        by_cases hE : (stateAt T G d0 gens n).disk \ gens.getD n ∅ = ∅
        · rw [if_pos hE]
          refine ⟨hwf, hcnt, ?_⟩
          intro p
          obtain ⟨S, hc, hm⟩ := hS p
          exact ⟨S, hc, fun i hi =>
            ⟨Nat.lt_succ_of_lt (hm i hi).1, (hm i hi).2.1, (hm i hi).2.2⟩⟩
        · rw [if_neg hE]
          refine ⟨process_WF_fst _ _ _ _ _ hwf, process_fst_counts_lt _ _ _ _ _ hcnt, ?_⟩
          intro p
          by_cases hlt : ((stateAt T G d0 gens n).disk \ gens.getD n ∅).card < T
          · rw [process_bypass _ _ _ _ _ hlt, PMap.get_dropKeys]
            by_cases hg : p ∈ gens.getD n ∅
            · refine ⟨∅, ?_, by simp⟩
              rw [if_pos hg]
              simp
            · obtain ⟨S, hc, hm⟩ := hS p
              refine ⟨S, ?_, fun i hi =>
                ⟨Nat.lt_succ_of_lt (hm i hi).1, (hm i hi).2.1, (hm i hi).2.2⟩⟩
              rw [if_neg hg]
              exact hc
          · have hge : T ≤ ((stateAt T G d0 gens n).disk \ gens.getD n ∅).card :=
              not_lt.mp hlt
            rw [process_protected_fst_get _ _ _ _ _ hge]
            by_cases hready :
                p ∈ (process T G (stateAt T G d0 gens n).pmap
                  ((stateAt T G d0 gens n).disk \ gens.getD n ∅) (gens.getD n ∅)).2
            · refine ⟨∅, ?_, by simp⟩
              rw [if_pos hready]
              simp
            · rw [if_neg hready]
              by_cases ho : p ∈ (stateAt T G d0 gens n).disk \ gens.getD n ∅
              · have hg : p ∉ gens.getD n ∅ := (Finset.mem_sdiff.mp ho).2
                obtain ⟨S, hc, hm⟩ := hS p
                have hnS : n ∉ S := fun hmem => Nat.lt_irrefl n (hm n hmem).1
                refine ⟨insert n S, ?_, ?_⟩
                · rw [Finset.card_insert_of_not_mem hnS, hc, if_pos ho, if_neg hg]
                · intro i hi
                  rcases Finset.mem_insert.mp hi with rfl | hiS
                  · exact ⟨Nat.lt_succ_self i, ho, hge⟩
                  · exact ⟨Nat.lt_succ_of_lt (hm i hiS).1, (hm i hiS).2.1,
                      (hm i hiS).2.2⟩
              · rw [if_neg ho]
                by_cases hg : p ∈ gens.getD n ∅
                · refine ⟨∅, ?_, by simp⟩
                  rw [if_pos hg]
                  simp
                · obtain ⟨S, hc, hm⟩ := hS p
                  refine ⟨S, ?_, fun i hi =>
                    ⟨Nat.lt_succ_of_lt (hm i hi).1, (hm i hi).2.1, (hm i hi).2.2⟩⟩
                  rw [if_neg hg]
                  exact hc
      · rw [stateAt_succ_of_ge T G d0 gens n (not_lt.mp hn)]
        refine ⟨hwf, hcnt, ?_⟩
        intro p
        obtain ⟨S, hc, hm⟩ := hS p
        exact ⟨S, hc, fun i hi =>
          ⟨Nat.lt_succ_of_lt (hm i hi).1, (hm i hi).2.1, (hm i hi).2.2⟩⟩

/-- Claim C3 exactly as stated: with smart-protection enabled, an orphan path
`p` is unlinked at scan `n` only if `p` was in the orphan set at each of the
`graceScans` consecutive scans ending at `n`, and at least one of those scans
had an orphan set of size at least `threshold`. -/
def claimC3Statement (T G : Nat) (d0 : Finset String)
    (gens : List (Finset String)) : Prop :=
  ∀ n, n < gens.length → ∀ p, p ∈ deletedAt T G d0 gens n →
    G ≤ n + 1 ∧
    (∀ i, n + 1 - G ≤ i → i ≤ n → p ∈ orphansAt T G d0 gens i) ∧
    (∃ i, n + 1 - G ≤ i ∧ i ≤ n ∧ T ≤ (orphansAt T G d0 gens i).card)

/-- C3 counterexample: threshold 5, grace 3, one existing stub `"p"`, a single
scan generating nothing.  The orphan set `{"p"}` is below the threshold, so
`process` bypasses protection and `"p"` is unlinked at the very first scan —
with no 3 confirming scans and no scan meeting the threshold. -/
theorem strm_orphan_deletion_claim_counterexample :
    ¬ claimC3Statement 5 3 {"p"} [∅] := by
  intro h
  have hp : "p" ∈ deletedAt 5 3 {"p"} [(∅ : Finset String)] 0 := by decide
  have h2 := (h 0 (by decide) "p" hp).1
  omega

/-- C3 corrected (amended).  An orphan path `p` is unlinked at scan `n` only
if either the orphan set at scan `n` has fewer than `threshold` elements
(`process` bypasses protection and releases it immediately), or `p` was in
the orphan set at `graceScans` distinct scans up to and including `n`, every
one of which had an orphan set of size at least `threshold`.  (The scans need
not be consecutive: a scan with an empty orphan set returns before the
protection manager runs, so it neither increments nor resets any counter.) -/
theorem strm_orphan_deletion_gated (T G : Nat) (hG : 1 ≤ G) (d0 : Finset String)
    (gens : List (Finset String)) (n : Nat) (p : String)
    (hp : p ∈ deletedAt T G d0 gens n) :
    (orphansAt T G d0 gens n).card < T ∨
    (∃ S : Finset Nat, S.card = G ∧ n ∈ S ∧
      ∀ i ∈ S, i ≤ n ∧ p ∈ orphansAt T G d0 gens i ∧
        T ≤ (orphansAt T G d0 gens i).card) := by
  unfold deletedAt at hp
  rw [syncDeletions_snd] at hp
  by_cases hE : (stateAt T G d0 gens n).disk \ gens.getD n ∅ = ∅
  · rw [if_pos hE] at hp
    exact absurd hp (Finset.not_mem_empty p)
  · rw [if_neg hE] at hp
    by_cases hlt : ((stateAt T G d0 gens n).disk \ gens.getD n ∅).card < T
    · left
      exact hlt
    · right
      have hge : T ≤ ((stateAt T G d0 gens n).disk \ gens.getD n ∅).card :=
        not_lt.mp hlt
      obtain ⟨hwf, hcnt, hS⟩ := scanTrace_invariant T G d0 gens n
      rw [process_protected_snd_mem _ _ _ _ _ hwf hge] at hp
      obtain ⟨htrk, hGe⟩ := hp
      have hub : PMap.get (stateAt T G d0 gens n).pmap p < G := by
        by_cases htr : PMap.tracked (stateAt T G d0 gens n).pmap p = true
        · exact hcnt _ (PMap.mem_of_tracked _ p htr)
        · rw [PMap.get_eq_zero_of_not_tracked _ p (Bool.not_eq_true _ ▸ htr)]
          omega
      have hpo : p ∈ (stateAt T G d0 gens n).disk \ gens.getD n ∅ := by
        by_contra hno
        rw [if_neg hno] at hGe
        by_cases hg : p ∈ gens.getD n ∅
        · rw [if_pos hg] at hGe
          omega
        · rw [if_neg hg] at hGe
          omega
      have hpg : p ∉ gens.getD n ∅ := (Finset.mem_sdiff.mp hpo).2
      rw [if_pos hpo, if_neg hpg] at hGe
      obtain ⟨S, hc, hm⟩ := hS p
      have hnS : n ∉ S := fun hmem => Nat.lt_irrefl n (hm n hmem).1
      refine ⟨insert n S, ?_, Finset.mem_insert_self n S, ?_⟩
      · rw [Finset.card_insert_of_not_mem hnS, hc]
        omega
      · intro i hi
        rcases Finset.mem_insert.mp hi with rfl | hiS
        · exact ⟨le_refl i, hpo, hge⟩
        · exact ⟨Nat.le_of_lt (hm i hiS).1, (hm i hiS).2.1, (hm i hiS).2.2⟩

/-- Concrete protected-branch release: threshold 1, grace 1, initial stub
`"p"`, one scan generating nothing: `"p"` is orphaned, counted to 1 ≥ grace,
and released by `process`. -/
theorem deletedAt_protected_example : "p" ∈ deletedAt 1 1 {"p"} [∅] 0 := by
  have h0 : deletedAt 1 1 {"p"} [∅] 0 = (syncDeletions 1 1 ⟨{"p"}, []⟩ ∅).2 := rfl
  rw [h0, syncDeletions_snd]
  show "p" ∈ (if ({"p"} : Finset String) \ ∅ = ∅ then (∅ : Finset String)
    else (process 1 1 [] (({"p"} : Finset String) \ ∅) ∅).2)
  rw [Finset.sdiff_empty, if_neg (Finset.singleton_ne_empty "p"),
    process_protected_snd_mem 1 1 [] {"p"} ∅ (by simp [PMap.WF]) (by simp)]
  decide

/-- Witness for `strm_orphan_deletion_gated`: threshold 1, grace 1, initial
stub `"p"`, single scan generating nothing: `"p"` is orphaned once, counted
to 1, and released through the protected branch at scan 0. -/
theorem strm_orphan_deletion_gated_witness :
    1 ≤ 1 ∧ "p" ∈ deletedAt 1 1 {"p"} [∅] 0 ∧
    ((orphansAt 1 1 {"p"} [∅] 0).card < 1 ∨
     (∃ S : Finset Nat, S.card = 1 ∧ 0 ∈ S ∧
       ∀ i ∈ S, i ≤ 0 ∧ "p" ∈ orphansAt 1 1 {"p"} [∅] i ∧
         1 ≤ (orphansAt 1 1 {"p"} [∅] i).card)) :=
  ⟨le_refl 1, deletedAt_protected_example,
    strm_orphan_deletion_gated 1 1 (le_refl 1) {"p"} [∅] 0 "p"
      deletedAt_protected_example⟩

/-!
## Sync engine (`src/core/worker.py`)

`FileSyncer.sync_file` classifies one source file and, when all checks pass,
copies it with retries.  Everything the function observes about the world is
collected in a `FileEnv` oracle: the file name, its pathlib suffix, the stat
results, the stability-check verdict and the success of each copy-and-verify
attempt (steps 6-9 of the source: mkdir, copy2, size check, rename — an
attempt fails exactly when one of them raises).  The environment is constant
across retry attempts, which is faithful because a re-examined classification
step yields the same verdict on an unchanged world.  Python's
`str.startswith` is embedded as a character-list prefix test. -/

def strStartsWith (s pre : String) : Bool := pre.data.isPrefixOf s.data

/-- Python `str.rstrip("$")`: remove every trailing dollar sign. -/
def rstripDollar (s : String) : String :=
  String.mk ((s.data.reverse.dropWhile (fun c => c == '$')).reverse)

/-- Python `str.lstrip(".")`: remove every leading dot. -/
def lstripDot (s : String) : String :=
  String.mk (s.data.dropWhile (fun c => c == '.'))

/-- `FileSyncer.IGNORE_LIST` (worker.py lines 21-30).  A Python set; embedded
as a duplicate-free list, and every operation on it is order-independent. -/
def IGNORE_LIST : List String :=
  [".DS_Store", "@eaDir", "#recycle", "Thumbs.db", ".tmp", ".temp", "~$", ".part"]

/-- `FileSyncer.should_ignore` (worker.py lines 56-78): exact membership in
the ignore list, or a prefix match against every member that starts with
`~` or `.`, stripped of trailing `$`. -/
def shouldIgnore (name : String) : Bool :=
  IGNORE_LIST.contains name ||
  IGNORE_LIST.any (fun pat =>
    (strStartsWith pat "~" || strStartsWith pat ".") &&
      strStartsWith name (rstripDollar pat))

/-- Oracle for everything `sync_file` observes about one source file. -/
structure FileEnv where
  name : String            -- `source_file.name`
  suffix : String          -- `source_file.suffix` (last extension, with dot)
  srcStat : Option Nat     -- stat size at the size-filter step; `none` = raises
  targetExists : Bool      -- `target_file.exists()`
  ruleStatOk : Bool        -- both stats inside `should_sync_file` succeed
  srcSize : Nat
  targetSize : Nat
  srcMtime : Nat
  targetMtime : Nat
  stable : Bool            -- verdict of `check_file_stability`
  copyOk : List Bool       -- per-attempt success of copy steps 6-9

/-- `FileSyncer.should_sync_file` (worker.py lines 190-248), returning only
the boolean verdict (the reason string is diagnostics). -/
def shouldSyncFile (env : FileEnv)
    (overwriteExisting ruleNotExists ruleSizeDiff ruleMtimeNewer : Bool) : Bool :=
  if !env.targetExists then
    if ruleNotExists then true
    else if overwriteExisting then true
    else false
  else if !env.ruleStatOk then true
  else if ruleSizeDiff && decide (env.srcSize ≠ env.targetSize) then true
  else if ruleMtimeNewer && decide (env.targetMtime < env.srcMtime) then true
  else if overwriteExisting then true
  else false

/-- The suffix filter, step 2 of `sync_file` (worker.py lines 300-314). -/
def suffixFiltered (env : FileEnv) (suffixMode : String)
    (suffixList : Option (List String)) : Bool :=
  let mode := (if suffixMode = "" then "NONE" else suffixMode).toUpper
  if mode == "NONE" then false
  else
    let ext := lstripDot env.suffix.toLower
    let suffixes := (suffixList.getD []).map (fun s => lstripDot s.toLower)
    if mode == "INCLUDE" then ext == "" || !(suffixes.contains ext)
    else if mode == "EXCLUDE" then ext != "" && suffixes.contains ext
    else false

/-- The size filter, step 3 of `sync_file` (worker.py lines 316-338); a failed
stat skips the filter. -/
def sizeFiltered (env : FileEnv) (sizeMin sizeMax : Option Nat) : Bool :=
  if sizeMin.isSome || sizeMax.isSome then
    match env.srcStat with
    | Option.none => false
    | Option.some size =>
        (match sizeMin with
         | Option.some mn => decide (size < mn)
         | Option.none => false) ||
        (match sizeMax with
         | Option.some mx => decide (mx < size)
         | Option.none => false)
  else false

/-- The copy-with-retry tail of `sync_file` (steps 6-9 and the retry loop):
the first successful attempt returns `Success`; when every attempt of the
schedule failed the loop falls through to `Failed`. -/
def attemptCopy : List Bool → String
  | [] => "Failed"
  | ok :: rest => if ok then "Success" else attemptCopy rest

/-- `FileSyncer.sync_file` (worker.py lines 250-407).  The classification
steps 1-5 observe the constant environment, so a retry re-enters them with
identical outcomes; only the copy steps differ per attempt, captured by
`env.copyOk`, of which `retry_count + 1` attempts are consumed. -/
def syncFile (env : FileEnv)
    (overwriteExisting ruleNotExists ruleSizeDiff ruleMtimeNewer : Bool)
    (sizeMin sizeMax : Option Nat) (suffixMode : String)
    (suffixList : Option (List String)) (retryCount : Nat) : String :=
  if shouldIgnore env.name then "Skipped (Ignored)"
  else if suffixFiltered env suffixMode suffixList then "Skipped (Filtered)"
  else if sizeFiltered env sizeMin sizeMax then "Skipped (Filtered)"
  else if !(shouldSyncFile env overwriteExisting ruleNotExists ruleSizeDiff
      ruleMtimeNewer) then "Skipped (Unchanged)"
  else if !env.stable then "Skipped (Active)"
  else attemptCopy (env.copyOk.take (retryCount + 1))

/-- The running counters of `sync_directory` (worker.py lines 448-456). -/
structure SyncStats where
  success : Nat
  skippedIgnored : Nat
  skippedActive : Nat
  skippedUnchanged : Nat
  skippedFiltered : Nat
  failed : Nat
  total : Nat
  deriving DecidableEq

/-- `FileSyncer._update_stats` (worker.py lines 545-565). -/
def updateStats (stats : SyncStats) (result : String) : SyncStats :=
  if result = "Success" then { stats with success := stats.success + 1 }
  else if result = "Skipped (Ignored)" then
    { stats with skippedIgnored := stats.skippedIgnored + 1 }
  else if result = "Skipped (Active)" then
    { stats with skippedActive := stats.skippedActive + 1 }
  else if result = "Skipped (Unchanged)" then
    { stats with skippedUnchanged := stats.skippedUnchanged + 1 }
  else if result = "Skipped (Filtered)" then
    { stats with skippedFiltered := stats.skippedFiltered + 1 }
  else if result = "Failed" then { stats with failed := stats.failed + 1 }
  else stats

/-- `FileSyncer.sync_directory` with `thread_count = 1` (worker.py lines
409-543): `total` is incremented once per enumerated regular file during
phase 1, then each file is processed by `sync_file` and folded into the
stats.  `envs` is the enumeration of the source tree in walk order. -/
def syncDirectory (envs : List FileEnv)
    (overwriteExisting ruleNotExists ruleSizeDiff ruleMtimeNewer : Bool)
    (sizeMin sizeMax : Option Nat) (suffixMode : String)
    (suffixList : Option (List String)) (retryCount : Nat) : SyncStats :=
  envs.foldl
    (fun st env => updateStats st (syncFile env overwriteExisting ruleNotExists
      ruleSizeDiff ruleMtimeNewer sizeMin sizeMax suffixMode suffixList retryCount))
    ⟨0, 0, 0, 0, 0, 0, envs.length⟩

/-! ### Claim C7: the ignore predicate -/

/-- What `should_ignore` actually accepts: because `"~$".rstrip("$")` is
`"~"`, every name starting with a bare `~` matches, and the prefix pass also
covers names merely starting with `".DS_Store"`, `".tmp"`, `".temp"` or
`".part"`. -/
theorem shouldIgnore_iff (name : String) :
    shouldIgnore name = true ↔
      (name = "@eaDir" ∨ name = "#recycle" ∨ name = "Thumbs.db" ∨
       strStartsWith name ".DS_Store" = true ∨ strStartsWith name ".tmp" = true ∨
       strStartsWith name ".temp" = true ∨ strStartsWith name ".part" = true ∨
       strStartsWith name "~" = true) := by
  have g1 : (strStartsWith ".DS_Store" "~" || strStartsWith ".DS_Store" ".") = true := by decide
  have g2 : (strStartsWith "@eaDir" "~" || strStartsWith "@eaDir" ".") = false := by decide
  have g3 : (strStartsWith "#recycle" "~" || strStartsWith "#recycle" ".") = false := by decide
  have g4 : (strStartsWith "Thumbs.db" "~" || strStartsWith "Thumbs.db" ".") = false := by decide
  have g5 : (strStartsWith ".tmp" "~" || strStartsWith ".tmp" ".") = true := by decide
  have g6 : (strStartsWith ".temp" "~" || strStartsWith ".temp" ".") = true := by decide
  have g7 : (strStartsWith "~$" "~" || strStartsWith "~$" ".") = true := by decide
  have g8 : (strStartsWith ".part" "~" || strStartsWith ".part" ".") = true := by decide
  have r1 : rstripDollar ".DS_Store" = ".DS_Store" := by decide
  have r5 : rstripDollar ".tmp" = ".tmp" := by decide
  have r6 : rstripDollar ".temp" = ".temp" := by decide
  have r7 : rstripDollar "~$" = "~" := by decide
  have r8 : rstripDollar ".part" = ".part" := by decide
  unfold shouldIgnore IGNORE_LIST
  simp only [List.contains_cons, List.contains_nil, List.any_cons, List.any_nil]
  rw [g1, g2, g3, g4, g5, g6, g7, g8, r1, r5, r6, r7, r8]
  simp only [Bool.true_and, Bool.false_and, Bool.or_false, Bool.false_or,
    Bool.or_eq_true, beq_iff_eq]
  constructor
  · rintro ((h | h | h | h | h | h | h | h) | (h | h | h | h | h))
    · subst h
      exact Or.inr (Or.inr (Or.inr (Or.inl (by decide))))
    · exact Or.inl h
    · exact Or.inr (Or.inl h)
    · exact Or.inr (Or.inr (Or.inl h))
    · subst h
      exact Or.inr (Or.inr (Or.inr (Or.inr (Or.inl (by decide)))))
    · subst h
      exact Or.inr (Or.inr (Or.inr (Or.inr (Or.inr (Or.inl (by decide))))))
    · subst h
      exact Or.inr (Or.inr (Or.inr (Or.inr (Or.inr (Or.inr (Or.inr (by decide)))))))
    · subst h
      exact Or.inr (Or.inr (Or.inr (Or.inr (Or.inr (Or.inr (Or.inl (by decide)))))))
    · exact Or.inr (Or.inr (Or.inr (Or.inl h)))
    · exact Or.inr (Or.inr (Or.inr (Or.inr (Or.inl h))))
    · exact Or.inr (Or.inr (Or.inr (Or.inr (Or.inr (Or.inl h)))))
    · exact Or.inr (Or.inr (Or.inr (Or.inr (Or.inr (Or.inr (Or.inr h))))))
    · exact Or.inr (Or.inr (Or.inr (Or.inr (Or.inr (Or.inr (Or.inl h))))))
  · rintro (h | h | h | h | h | h | h | h)
    · exact Or.inl (Or.inr (Or.inl h))
    · exact Or.inl (Or.inr (Or.inr (Or.inl h)))
    · exact Or.inl (Or.inr (Or.inr (Or.inr (Or.inl h))))
    · exact Or.inr (Or.inl h)
    · exact Or.inr (Or.inr (Or.inl h))
    · exact Or.inr (Or.inr (Or.inr (Or.inl h)))
    · exact Or.inr (Or.inr (Or.inr (Or.inr (Or.inr h))))
    · exact Or.inr (Or.inr (Or.inr (Or.inr (Or.inl h))))

/-- `attemptCopy` yields `Success` or `Failed` only. -/
theorem attemptCopy_mem (l : List Bool) :
    attemptCopy l = "Success" ∨ attemptCopy l = "Failed" := by
  induction l with
  | nil => exact Or.inr rfl
  | cons ok rest ih =>
      by_cases h : ok = true
      · simp [attemptCopy, h]
      · simp only [attemptCopy, Bool.not_eq_true] at *
        simp [h, ih]

/-- Claim C7 as stated: outcome `Skipped (Ignored)` iff the name is exactly
one of the four listed names or starts with `.tmp`, `.temp`, `.part` or
`~$`. -/
def claimC7Pred (name : String) : Prop :=
  name = ".DS_Store" ∨ name = "@eaDir" ∨ name = "#recycle" ∨ name = "Thumbs.db" ∨
  strStartsWith name ".tmp" = true ∨ strStartsWith name ".temp" = true ∨
  strStartsWith name ".part" = true ∨ strStartsWith name "~$" = true

/-- C7 counterexample: the file named `"~backup"` is classified
`Skipped (Ignored)` by `sync_file` (because `"~$".rstrip("$") = "~"` turns
the Office-temp prefix into a bare `~`), but the claimed predicate rejects
it. -/
theorem sync_file_ignored_claim_counterexample :
    syncFile ⟨"~backup", "", Option.none, false, true, 0, 0, 0, 0, true, [true]⟩
        false false false false Option.none Option.none "NONE" Option.none 0 =
      "Skipped (Ignored)" ∧
    ¬claimC7Pred "~backup" := by
  constructor
  · decide
  · intro h
    rcases h with h | h | h | h | h | h | h | h <;> revert h <;> decide

/-- C7 corrected (amended).  The outcome of `sync_file` is
`Skipped (Ignored)` if and only if the file's name is exactly `@eaDir`,
`#recycle` or `Thumbs.db`, or starts with one of the prefixes `.DS_Store`,
`.tmp`, `.temp`, `.part`, or `~`; no other name is ignored.  (The exact
names `.DS_Store`, `.tmp`, `.temp`, `.part` and `~$` of the claim are
subsumed by their own prefixes, and `~$` is widened to `~` because the
source strips the trailing `$` before prefix matching.) -/
theorem sync_file_ignored_iff (env : FileEnv)
    (overwriteExisting ruleNotExists ruleSizeDiff ruleMtimeNewer : Bool)
    (sizeMin sizeMax : Option Nat) (suffixMode : String)
    (suffixList : Option (List String)) (retryCount : Nat) :
    syncFile env overwriteExisting ruleNotExists ruleSizeDiff ruleMtimeNewer
        sizeMin sizeMax suffixMode suffixList retryCount = "Skipped (Ignored)" ↔
      (env.name = "@eaDir" ∨ env.name = "#recycle" ∨ env.name = "Thumbs.db" ∨
       strStartsWith env.name ".DS_Store" = true ∨
       strStartsWith env.name ".tmp" = true ∨
       strStartsWith env.name ".temp" = true ∨
       strStartsWith env.name ".part" = true ∨
       strStartsWith env.name "~" = true) := by
  rw [← shouldIgnore_iff]
  unfold syncFile
  by_cases hig : shouldIgnore env.name = true
  · simp [hig]
  · have hne : syncFile env overwriteExisting ruleNotExists ruleSizeDiff ruleMtimeNewer
        sizeMin sizeMax suffixMode suffixList retryCount ≠ "Skipped (Ignored)" := by
      unfold syncFile
      rw [if_neg hig]
      by_cases h2 : suffixFiltered env suffixMode suffixList = true
      · rw [if_pos h2]
        decide
      · rw [if_neg h2]
        by_cases h3 : sizeFiltered env sizeMin sizeMax = true
        · rw [if_pos h3]
          decide
        · rw [if_neg h3]
          by_cases h4 : shouldSyncFile env overwriteExisting ruleNotExists
              ruleSizeDiff ruleMtimeNewer = true
          · rw [if_neg (show ¬((!shouldSyncFile env overwriteExisting ruleNotExists
                ruleSizeDiff ruleMtimeNewer) = true) by rw [h4]; decide)]
            by_cases h5 : env.stable = true
            · rw [if_neg (show ¬((!env.stable) = true) by rw [h5]; decide)]
              rcases attemptCopy_mem (env.copyOk.take (retryCount + 1)) with hc | hc <;>
                rw [hc] <;> decide
            · have h5f : env.stable = false := by
                cases hcase : env.stable
                · rfl
                · exact absurd hcase h5
              rw [if_pos (show (!env.stable) = true by rw [h5f]; decide)]
              decide
          · have h4f : shouldSyncFile env overwriteExisting ruleNotExists
                ruleSizeDiff ruleMtimeNewer = false := by
              cases hcase : shouldSyncFile env overwriteExisting ruleNotExists
                  ruleSizeDiff ruleMtimeNewer
              · rfl
              · exact absurd hcase h4
            rw [if_pos (show (!shouldSyncFile env overwriteExisting ruleNotExists
                ruleSizeDiff ruleMtimeNewer) = true by rw [h4f]; decide)]
            decide
    constructor
    · intro h
      exact absurd h hne
    · intro h
      exact absurd h hig

/-! ### Claim C8: the statistics partition of a sync run -/

/-- `sync_file` returns exactly one of the six outcome strings. -/
theorem syncFile_mem_results (env : FileEnv)
    (overwriteExisting ruleNotExists ruleSizeDiff ruleMtimeNewer : Bool)
    (sizeMin sizeMax : Option Nat) (suffixMode : String)
    (suffixList : Option (List String)) (retryCount : Nat) :
    syncFile env overwriteExisting ruleNotExists ruleSizeDiff ruleMtimeNewer
        sizeMin sizeMax suffixMode suffixList retryCount ∈
      ["Success", "Skipped (Ignored)", "Skipped (Active)", "Skipped (Unchanged)",
       "Skipped (Filtered)", "Failed"] := by
  unfold syncFile
  by_cases h1 : shouldIgnore env.name = true
  · rw [if_pos h1]
    decide
  · rw [if_neg h1]
    by_cases h2 : suffixFiltered env suffixMode suffixList = true
    · rw [if_pos h2]
      decide
    · rw [if_neg h2]
      by_cases h3 : sizeFiltered env sizeMin sizeMax = true
      · rw [if_pos h3]
        decide
      · rw [if_neg h3]
        by_cases h4 : (!shouldSyncFile env overwriteExisting ruleNotExists
            ruleSizeDiff ruleMtimeNewer) = true
        · rw [if_pos h4]
          decide
        · rw [if_neg h4]
          by_cases h5 : (!env.stable) = true
          · rw [if_pos h5]
            decide
          · rw [if_neg h5]
            rcases attemptCopy_mem (env.copyOk.take (retryCount + 1)) with hc | hc <;>
              rw [hc] <;> decide

/-- The sum of the six outcome counters. -/
def statsSum (st : SyncStats) : Nat :=
  st.success + st.skippedIgnored + st.skippedFiltered + st.skippedUnchanged +
    st.skippedActive + st.failed

theorem updateStats_sum (st : SyncStats) (r : String)
    (h : r ∈ ["Success", "Skipped (Ignored)", "Skipped (Active)",
      "Skipped (Unchanged)", "Skipped (Filtered)", "Failed"]) :
    statsSum (updateStats st r) = statsSum st + 1 ∧
      (updateStats st r).total = st.total := by
  simp only [List.mem_cons, List.not_mem_nil, or_false] at h
  rcases h with rfl | rfl | rfl | rfl | rfl | rfl <;>
    simp [updateStats, statsSum] <;> omega

theorem syncDirectory_fold_sum (envs : List FileEnv) (init : SyncStats)
    (overwriteExisting ruleNotExists ruleSizeDiff ruleMtimeNewer : Bool)
    (sizeMin sizeMax : Option Nat) (suffixMode : String)
    (suffixList : Option (List String)) (retryCount : Nat) :
    statsSum (envs.foldl
      (fun st env => updateStats st (syncFile env overwriteExisting ruleNotExists
        ruleSizeDiff ruleMtimeNewer sizeMin sizeMax suffixMode suffixList retryCount))
      init) = statsSum init + envs.length ∧
    (envs.foldl
      (fun st env => updateStats st (syncFile env overwriteExisting ruleNotExists
        ruleSizeDiff ruleMtimeNewer sizeMin sizeMax suffixMode suffixList retryCount))
      init).total = init.total := by
  induction envs generalizing init with
  | nil => simp
  | cons env rest ih =>
      have hmem := syncFile_mem_results env overwriteExisting ruleNotExists
        ruleSizeDiff ruleMtimeNewer sizeMin sizeMax suffixMode suffixList retryCount
      have hstep := updateStats_sum init _ hmem
      simp only [List.foldl_cons, List.length_cons]
      have hrec := ih (updateStats init (syncFile env overwriteExisting ruleNotExists
        ruleSizeDiff ruleMtimeNewer sizeMin sizeMax suffixMode suffixList retryCount))
      refine ⟨?_, ?_⟩
      · rw [hrec.1, hstep.1]
        omega
      · rw [hrec.2, hstep.2]

/-- C8 (confirmed).  For every completed single-threaded `sync_directory`
run, `total` (the number of regular files enumerated under the source tree)
equals the sum of the six outcome counters: each enumerated file is handed
to `sync_file` exactly once, whose result is one of the six outcome strings,
and `_update_stats` bumps exactly the counter for that outcome. -/
theorem sync_directory_stats_partition (envs : List FileEnv)
    (overwriteExisting ruleNotExists ruleSizeDiff ruleMtimeNewer : Bool)
    (sizeMin sizeMax : Option Nat) (suffixMode : String)
    (suffixList : Option (List String)) (retryCount : Nat) :
    (syncDirectory envs overwriteExisting ruleNotExists ruleSizeDiff ruleMtimeNewer
      sizeMin sizeMax suffixMode suffixList retryCount).total =
    (syncDirectory envs overwriteExisting ruleNotExists ruleSizeDiff ruleMtimeNewer
      sizeMin sizeMax suffixMode suffixList retryCount).success +
    (syncDirectory envs overwriteExisting ruleNotExists ruleSizeDiff ruleMtimeNewer
      sizeMin sizeMax suffixMode suffixList retryCount).skippedIgnored +
    (syncDirectory envs overwriteExisting ruleNotExists ruleSizeDiff ruleMtimeNewer
      sizeMin sizeMax suffixMode suffixList retryCount).skippedFiltered +
    (syncDirectory envs overwriteExisting ruleNotExists ruleSizeDiff ruleMtimeNewer
      sizeMin sizeMax suffixMode suffixList retryCount).skippedUnchanged +
    (syncDirectory envs overwriteExisting ruleNotExists ruleSizeDiff ruleMtimeNewer
      sizeMin sizeMax suffixMode suffixList retryCount).skippedActive +
    (syncDirectory envs overwriteExisting ruleNotExists ruleSizeDiff ruleMtimeNewer
      sizeMin sizeMax suffixMode suffixList retryCount).failed := by
  have h := syncDirectory_fold_sum envs ⟨0, 0, 0, 0, 0, 0, envs.length⟩
    overwriteExisting ruleNotExists ruleSizeDiff ruleMtimeNewer
    sizeMin sizeMax suffixMode suffixList retryCount
  obtain ⟨h1, h2⟩ := h
  simp [statsSum] at h1 h2
  unfold syncDirectory
  omega

/-!
## Stub materialization outcomes (`src/core/strm_generator.py`)

`_generate_strm_for_file` (lines 250-307) derives the stub's target path,
returns it immediately when the stub exists and `overwrite` is unset, else
writes the stub (raising on failure).  The oracle `StrmFileEnv` carries the
derived target path (`flatten` and the source-root stripping only shape the
path string, which no claim inspects) plus the two observations the
function branches on. -/
structure StrmFileEnv where
  strmPath : String        -- the derived `.strm` target path
  strmExists : Bool        -- `strm_path.exists()`
  writeOk : Bool           -- the `open`/`write` of the stub succeeds

/-- The statistics of one `StrmGenerator.run` relevant to per-file outcomes
(strm_generator.py lines 36-45 and 113-136). -/
structure StrmStats where
  total : Nat
  success : Nat
  skipped : Nat
  failed : Nat
  strmCreated : Nat
  deriving DecidableEq

/-- `_generate_strm_for_file`: the early return at lines 278-279 hands the
existing path back; otherwise a successful write bumps `strm_created` and
returns the path, and a failed write raises (`none`). -/
def generateStrmForFile (overwrite : Bool) (env : StrmFileEnv)
    (st : StrmStats) : StrmStats × Option String :=
  if !overwrite && env.strmExists then (st, some env.strmPath)
  else if env.writeOk then
    ({ st with strmCreated := st.strmCreated + 1 }, some env.strmPath)
  else (st, none)

/-- The generation loop of `StrmGenerator.run` (lines 113-136): a returned
path counts as `success` and joins `generated_strm`; an exception counts as
`failed`; `skipped` is only bumped when the call returns `None`, which no
path of `_generate_strm_for_file` does. -/
def strmRunLoop (overwrite : Bool) (envs : List StrmFileEnv) :
    StrmStats × List String :=
  envs.foldl
    (fun acc env =>
      match generateStrmForFile overwrite env acc.1 with
      | (st2, some p) => ({ st2 with success := st2.success + 1 }, acc.2 ++ [p])
      | (st2, Option.none) => ({ st2 with failed := st2.failed + 1 }, acc.2))
    (⟨envs.length, 0, 0, 0, 0⟩, [])

/-- C6 (code_bug).  A qualifying remote file whose target stub already exists
while `overwrite` is unset is counted in `success`, not in `skipped`: the
early return hands back the existing path (although the function's own
docstring promises `None` for a skipped file) and the run loop counts any
returned path as a success.  At the failing input — one remote file, stub
present, `overwrite` false — the run ends with `success = 1, skipped = 0`
and the file's path in `generated_strm`, contradicting the claimed
`SKIPPED` outcome. -/
theorem strm_existing_stub_counted_as_success :
    strmRunLoop false [⟨"/tgt/a.strm", true, true⟩] =
      (⟨1, 1, 0, 0, 0⟩, ["/tgt/a.strm"]) := by
  decide

/-!
## Config schema migration (`src/core/scheduler.py` lines 1061-1091)

The on-disk config document is JSON; `_migrate_v0_to_v1` and
`_migrate_config` manipulate the top-level dict.  JSON values are embedded
as an inductive type and the document as an association list in key order
(`json.load` produces unique keys; the operations below do not depend on
uniqueness). -/
inductive Json where
  | null : Json
  | bool (b : Bool) : Json
  | num (n : Int) : Json
  | str (s : String) : Json
  | arr (xs : List Json) : Json
  | obj (fields : List (String × Json)) : Json

abbrev JDoc := List (String × Json)

/-- Python `data.get(key)`: first binding of the key, if any. -/
def jGet : JDoc → String → Option Json
  | [], _ => Option.none
  | e :: t, k => if e.1 = k then some e.2 else jGet t k

/-- Python `data[key] = v`: replace the binding in place, else append. -/
def jSet : JDoc → String → Json → JDoc
  | [], k, v => [(k, v)]
  | e :: t, k, v => if e.1 = k then (k, v) :: t else e :: jSet t k v

/-- Python `isinstance(x, list)`. -/
def Json.isArr : Json → Bool
  | Json.arr _ => true
  | _ => false

/-- Python falsiness of a JSON value (`None`, `False`, `0`, `""`, `[]`,
`{}`). -/
def Json.falsy : Json → Bool
  | Json.null => true
  | Json.bool b => !b
  | Json.num n => n == 0
  | Json.str s => s == ""
  | Json.arr xs => xs.isEmpty
  | Json.obj fs => fs.isEmpty

/-- Python `int(x)` on a JSON value; `none` models raising `TypeError` /
`ValueError`.  String parsing is embedded by `String.toInt?`, which agrees
with Python on every decimal numeral (exotic spellings differ, but the
migration's `except` clause maps every failure to 0 anyway and the second
pass below only ever sees the integer 1). -/
def Json.toPyInt : Json → Option Int
  | Json.num n => some n
  | Json.bool b => some (if b then 1 else 0)
  | Json.str s => s.toInt?
  | _ => Option.none

/-- `_migrate_v0_to_v1` (scheduler.py lines 1061-1070): force `tasks` and
`delete_queue` to be arrays. -/
def migrateV0toV1 (d : JDoc) : JDoc :=
  let d1 := if ((jGet d "tasks").getD Json.null).isArr then d
            else jSet d "tasks" (Json.arr [])
  if ((jGet d1 "delete_queue").getD Json.null).isArr then d1
  else jSet d1 "delete_queue" (Json.arr [])

/-- `CONFIG_SCHEMA_VERSION` (scheduler.py line 25). -/
def CONFIG_SCHEMA_VERSION : Int := 1

/-- The `version` computed by `_migrate_config` (scheduler.py lines
1074-1078): `int(old_version or 0)` with any failure counting as 0, where
`old_version = data.get("schema_version", 0)`. -/
def migrateVersionOf (d : JDoc) : Int :=
  let oldVersion := (jGet d "schema_version").getD (Json.num 0)
  if oldVersion.falsy then 0 else (oldVersion.toPyInt).getD 0

/-- `_migrate_config` (scheduler.py lines 1072-1091): run the v0→v1 step when
the version is below 1, then stamp the current schema version. -/
def migrateConfig (d : JDoc) : JDoc :=
  jSet (if migrateVersionOf d < 1 then migrateV0toV1 d else d)
    "schema_version" (Json.num CONFIG_SCHEMA_VERSION)

theorem jGet_jSet_self (d : JDoc) (k : String) (v : Json) :
    jGet (jSet d k v) k = some v := by
  induction d with
  | nil => simp [jSet, jGet]
  | cons e t ih =>
      by_cases h : e.1 = k
      · simp [jSet, h, jGet]
      · simp [jSet, h, jGet, ih]

theorem jSet_jSet_self (d : JDoc) (k : String) (v : Json) :
    jSet (jSet d k v) k v = jSet d k v := by
  induction d with
  | nil => simp [jSet]
  | cons e t ih =>
      by_cases h : e.1 = k
      · simp [jSet, h]
      · simp [jSet, h, ih]

/-- C9 (confirmed).  The configuration schema migration is idempotent: for
every config document, applying `_migrate_config` (which performs the v0→v1
migration and stamps `schema_version`) twice yields the same document as
applying it once — the second application reads `schema_version = 1`, skips
the v0→v1 normalization of `tasks` and `delete_queue`, and re-writes the
same version stamp. -/
theorem migrate_config_idempotent (d : JDoc) :
    migrateConfig (migrateConfig d) = migrateConfig d := by
  have hver : jGet (migrateConfig d) "schema_version" =
      some (Json.num CONFIG_SCHEMA_VERSION) := by
    unfold migrateConfig
    exact jGet_jSet_self _ "schema_version" _
  have hv : migrateVersionOf (migrateConfig d) = 1 := by
    unfold migrateVersionOf
    rw [hver]
    decide
  nth_rewrite 1 [migrateConfig]
  rw [hv, if_neg (by norm_num : ¬(1 : Int) < 1)]
  nth_rewrite 1 [migrateConfig]
  rw [jSet_jSet_self]
  rfl

/-!
## Task objects as Python attribute maps (`src/core/models.py`)

`_schedule_file_deletion` and `update_task` interact with task objects only
through `getattr` / `setattr` / `hasattr`, so instances are embedded as
association lists from attribute name to value.  `PyVal` covers every value
a `SyncTask` attribute can hold. -/
inductive PyVal where
  | none : PyVal
  | bool (b : Bool) : PyVal
  | int (n : Int) : PyVal
  | str (s : String) : PyVal
  | strList (l : List String) : PyVal
  | sched (s : String) : PyVal
  | tstatus (s : String) : PyVal
  deriving DecidableEq

/-- Python truthiness. -/
def PyVal.truthy : PyVal → Bool
  | PyVal.none => false
  | PyVal.bool b => b
  | PyVal.int n => !(n == 0)
  | PyVal.str s => !(s == "")
  | PyVal.strList l => !l.isEmpty
  | PyVal.sched _ => true
  | PyVal.tstatus _ => true

abbrev PyObj := List (String × PyVal)

/-- `getattr(obj, name, default)`. -/
def pyGetattr : PyObj → String → PyVal → PyVal
  | [], _, dflt => dflt
  | e :: t, name, dflt => if e.1 = name then e.2 else pyGetattr t name dflt

/-- `hasattr(obj, name)`. -/
def pyHasattr : PyObj → String → Bool
  | [], _ => false
  | e :: t, name => decide (e.1 = name) || pyHasattr t name

/-- `setattr(obj, name, value)`: replace the attribute in place, else
append. -/
def pySetattr : PyObj → String → PyVal → PyObj
  | [], name, v => [(name, v)]
  | e :: t, name, v => if e.1 = name then (name, v) :: t else e :: pySetattr t name v

def pyOfOptStr : Option String → PyVal
  | some s => PyVal.str s
  | Option.none => PyVal.none

def pyOfOptInt : Option Int → PyVal
  | some n => PyVal.int n
  | Option.none => PyVal.none

/-- `ScheduleType[s]` (models.py line 81): raises `KeyError` outside the two
member names. -/
def scheduleTypeOf (s : String) : Option PyVal :=
  if s = "INTERVAL" ∨ s = "CRON" then some (PyVal.sched s) else Option.none

/-- `TaskStatus[s]` (models.py line 83). -/
def taskStatusOf (s : String) : Option PyVal :=
  if s = "IDLE" ∨ s = "QUEUED" ∨ s = "RUNNING" ∨ s = "ERROR" then
    some (PyVal.tstatus s)
  else Option.none

/-- The keyword parameters of `SyncTask.__init__` (models.py lines 28-50)
with their declared defaults.  Successfully constructed instances with
unconventionally-typed values (Python would store them unchecked) carry the
same attribute-name set, which is all the claims below inspect. -/
structure SyncTaskParams where
  name : String
  source_path : String
  target_path : String
  interval : Int := 300
  schedule_type : String := "INTERVAL"
  cron_expression : Option String := Option.none
  task_id : Option String := Option.none
  status : String := "IDLE"
  last_run_time : Option String := Option.none
  enabled : Bool := true
  overwrite_existing : Bool := false
  thread_count : Int := 1
  rule_not_exists : Bool := false
  rule_size_diff : Bool := false
  rule_mtime_newer : Bool := false
  is_slow_storage : Bool := false
  size_min_bytes : Option Int := Option.none
  size_max_bytes : Option Int := Option.none
  suffix_mode : String := "NONE"
  suffix_list : Option (List String) := Option.none

/-- `SyncTask.__init__` (models.py lines 76-101): the exact attribute set a
fresh instance carries, in assignment order; `none` models a `KeyError` of
the enum lookups.  `freshId` stands for `str(uuid.uuid4())`. -/
def syncTaskInit (p : SyncTaskParams) (freshId : String) : Option PyObj :=
  match scheduleTypeOf p.schedule_type, taskStatusOf p.status with
  | some schedv, some statusv =>
      some [
        ("id", PyVal.str (match p.task_id with
          | some s => if s = "" then freshId else s
          | Option.none => freshId)),
        ("name", PyVal.str p.name),
        ("source_path", PyVal.str p.source_path),
        ("target_path", PyVal.str p.target_path),
        ("interval", PyVal.int p.interval),
        ("schedule_type", schedv),
        ("cron_expression", pyOfOptStr p.cron_expression),
        ("status", statusv),
        ("last_run_time", pyOfOptStr p.last_run_time),
        ("enabled", PyVal.bool p.enabled),
        ("recursive", PyVal.bool true),
        ("overwrite_existing", PyVal.bool p.overwrite_existing),
        ("is_slow_storage", PyVal.bool p.is_slow_storage),
        ("thread_count", PyVal.int (if p.is_slow_storage then
            min (max 1 p.thread_count) 2 else max 1 p.thread_count)),
        ("rule_not_exists", PyVal.bool p.rule_not_exists),
        ("rule_size_diff", PyVal.bool p.rule_size_diff),
        ("rule_mtime_newer", PyVal.bool p.rule_mtime_newer),
        ("size_min_bytes", pyOfOptInt p.size_min_bytes),
        ("size_max_bytes", pyOfOptInt p.size_max_bytes),
        ("suffix_mode", PyVal.str ((if p.suffix_mode = "" then "NONE"
            else p.suffix_mode).toUpper)),
        ("suffix_list", match p.suffix_list with
          | some l => if l.isEmpty then PyVal.none
                      else PyVal.strList (l.map (fun s => lstripDot s.toLower))
          | Option.none => PyVal.none)]
  | _, _ => Option.none

def dGetStr (data : PyObj) (k : String) (dflt : String) : String :=
  match pyGetattr data k PyVal.none with
  | PyVal.str s => s
  | _ => dflt

def dGetOptStr (data : PyObj) (k : String) : Option String :=
  match pyGetattr data k PyVal.none with
  | PyVal.str s => some s
  | _ => Option.none

def dGetInt (data : PyObj) (k : String) (dflt : Int) : Int :=
  match pyGetattr data k PyVal.none with
  | PyVal.int n => n
  | _ => dflt

def dGetBool (data : PyObj) (k : String) (dflt : Bool) : Bool :=
  match pyGetattr data k PyVal.none with
  | PyVal.bool b => b
  | _ => dflt

def dGetOptInt (data : PyObj) (k : String) : Option Int :=
  match pyGetattr data k PyVal.none with
  | PyVal.int n => some n
  | _ => Option.none

def dGetOptStrList (data : PyObj) (k : String) : Option (List String) :=
  match pyGetattr data k PyVal.none with
  | PyVal.strList l => some l
  | _ => Option.none

/-- `SyncTask.from_dict` (models.py lines 134-166): extract each keyword
from the JSON dict with the documented default and call the constructor.
`none` models the `KeyError` on a missing required field.  Values of
unexpected JSON type fall back to the field's default here; Python would
pass them through unchecked, but the constructed attribute-name set — all
the claims below inspect — is identical. -/
def fromDict (data : PyObj) (freshId : String) : Option PyObj :=
  match pyGetattr data "name" PyVal.none, pyGetattr data "source_path" PyVal.none,
      pyGetattr data "target_path" PyVal.none with
  | PyVal.str nm, PyVal.str sp, PyVal.str tp =>
      syncTaskInit
        { name := nm
          source_path := sp
          target_path := tp
          interval := dGetInt data "interval" 300
          schedule_type := dGetStr data "schedule_type" "INTERVAL"
          cron_expression := dGetOptStr data "cron_expression"
          task_id := dGetOptStr data "id"
          status := dGetStr data "status" "IDLE"
          last_run_time := dGetOptStr data "last_run_time"
          enabled := dGetBool data "enabled" true
          overwrite_existing := dGetBool data "overwrite_existing" false
          thread_count := dGetInt data "thread_count" 1
          rule_not_exists := dGetBool data "rule_not_exists" false
          rule_size_diff := dGetBool data "rule_size_diff" false
          rule_mtime_newer := dGetBool data "rule_mtime_newer" false
          is_slow_storage := dGetBool data "is_slow_storage" false
          size_min_bytes := dGetOptInt data "size_min_bytes"
          size_max_bytes := dGetOptInt data "size_max_bytes"
          suffix_mode := dGetStr data "suffix_mode" "NONE"
          suffix_list := dGetOptStrList data "suffix_list" } freshId
  | _, _, _ => Option.none

/-- The field-patch loop of `TaskScheduler.update_task` (scheduler.py lines
659-661): assign each pair only when the attribute already exists.  The
trigger re-registration and persistence that follow touch no task
attribute. -/
def updateTaskPatch (task : PyObj) (patch : List (String × PyVal)) : PyObj :=
  patch.foldl (fun t kv => if pyHasattr t kv.1 then pySetattr t kv.1 kv.2 else t) task

/-!
## Metadata store and deletion subsystem (`src/core/database.py`,
`src/core/scheduler.py`)

The database state holds the delete queue (`database.py` lines 57-68:
autoincrement id, `source_path` UNIQUE) and — modelled from the spec — the
file cache and history, which `src/core/database.py` lacks although
`scheduler.py` calls `upsert_file_cache`, `is_file_synced`,
`update_sync_status` and `add_history_record` on it (spec §4.6).  The
filesystem is the source tree: a map from path to metadata. -/
structure FileMeta where
  size : Nat
  mtime : Nat
  ctime : Nat
  deriving DecidableEq

structure DeleteRecord where
  rid : Nat
  taskId : String
  sourcePath : String
  deleteAt : Nat
  deleteParent : Bool
  timeBase : String
  deriving DecidableEq

/-- Modelled from the spec: one `file_cache` row (§4.6; the table is absent
from src/core/database.py).  The opportunistic hash columns are never read
by the embedded operations and are omitted. -/
structure CacheRow where
  taskId : String
  path : String
  size : Nat
  mtime : Nat
  syncStatus : String
  syncedAt : Option Nat
  deletedAt : Option Nat
  lastError : Option String
  deriving DecidableEq

structure Db where
  deleteQueue : List DeleteRecord
  nextId : Nat
  fileCache : List CacheRow
  history : List (String × String × String × Option String)
  deriving DecidableEq

/-- `Database.add_delete_record` (database.py lines 123-147): INSERT with
`ON CONFLICT(source_path) DO UPDATE`; a conflicting row keeps its id. -/
def addDeleteRecord (db : Db) (taskId sourcePath : String) (deleteAt : Nat)
    (deleteParent : Bool) (timeBase : String) : Db :=
  if db.deleteQueue.any (fun r => r.sourcePath == sourcePath) then
    { db with deleteQueue := db.deleteQueue.map (fun r =>
        if r.sourcePath == sourcePath then
          { r with
            taskId := taskId
            deleteAt := deleteAt
            deleteParent := deleteParent
            timeBase := timeBase }
        else r) }
  else
    { db with
      deleteQueue := db.deleteQueue ++
        [⟨db.nextId, taskId, sourcePath, deleteAt, deleteParent, timeBase⟩]
      nextId := db.nextId + 1 }

/-- Insertion step of the `ORDER BY delete_at ASC` embedding. -/
def insertByDeleteAt (r : DeleteRecord) : List DeleteRecord → List DeleteRecord
  | [] => [r]
  | x :: t => if r.deleteAt ≤ x.deleteAt then r :: x :: t else x :: insertByDeleteAt r t

/-- A `delete_at`-ascending ordering of a row list (one legal result of
SQLite's `ORDER BY delete_at ASC`, which leaves ties unspecified). -/
def sortByDeleteAt (l : List DeleteRecord) : List DeleteRecord :=
  l.foldr insertByDeleteAt []

/-- `Database.get_expired_records` (database.py lines 149-170). -/
def getExpiredRecords (db : Db) (taskId : String) (now : Nat) : List DeleteRecord :=
  sortByDeleteAt (db.deleteQueue.filter
    (fun r => r.taskId == taskId && decide (r.deleteAt ≤ now)))

/-- `Database.remove_delete_records_by_id` (database.py lines 219-233). -/
def removeDeleteRecordsById (db : Db) (ids : List Nat) : Db :=
  if ids.isEmpty then db
  else { db with deleteQueue := db.deleteQueue.filter (fun r => !(ids.contains r.rid)) }

/-- Modelled from the spec: `Database.is_file_synced` (§4.6, §4.4
"file-cache must report status SYNCED for this path within the owning
task"); absent from src/core/database.py though scheduler.py line 240 calls
it. -/
def isFileSynced (db : Db) (taskId path : String) : Bool :=
  db.fileCache.any (fun c =>
    c.taskId == taskId && c.path == path && c.syncStatus == "SYNCED")

/-- Modelled from the spec: `Database.upsert_file_cache` (§4.6); replaces or
inserts the row keyed by `(task_id, path)`. -/
def upsertFileCache (db : Db) (row : CacheRow) : Db :=
  if db.fileCache.any (fun c => c.taskId == row.taskId && c.path == row.path) then
    { db with fileCache := db.fileCache.map (fun c =>
        if c.taskId == row.taskId && c.path == row.path then row else c) }
  else { db with fileCache := db.fileCache ++ [row] }

/-- Modelled from the spec: `Database.update_sync_status` (§4.6); updates
status and deletion timestamp of the `(task_id, path)` row. -/
def updateSyncStatus (db : Db) (taskId path status : String)
    (deletedAt : Option Nat) : Db :=
  { db with fileCache := db.fileCache.map (fun c =>
      if c.taskId == taskId && c.path == path then
        { c with syncStatus := status, deletedAt := deletedAt }
      else c) }

/-- Modelled from the spec: `Database.add_history_record` (§4.6); the
short-window dedup only suppresses duplicate audit rows and is elided — no
claim inspects history. -/
def addHistoryRecord (db : Db) (taskId path status : String)
    (details : Option String) : Db :=
  { db with history := db.history ++ [(taskId, path, status, details)] }

/-- The source tree: path → metadata. -/
def fsStat : List (String × FileMeta) → String → Option FileMeta
  | [], _ => Option.none
  | e :: t, p => if e.1 = p then some e.2 else fsStat t p

/-- `path.unlink()`. -/
def fsRemove (fs : List (String × FileMeta)) (p : String) : List (String × FileMeta) :=
  fs.filter (fun e => !(e.1 == p))

structure World where
  db : Db
  fs : List (String × FileMeta)
  deriving DecidableEq

/-- `timedelta(days=...)` in the `Nat` timestamp model. -/
def secondsPerDay : Nat := 86400

/-- Python `int(x)` over a stored attribute value, with the
`except (TypeError, ValueError)` of scheduler.py lines 121-124 mapping every
failure to 0. -/
def pyIntValOrZero : PyVal → Int
  | PyVal.int n => n
  | PyVal.bool b => if b then 1 else 0
  | PyVal.str s => (s.toInt?).getD 0
  | _ => 0

/-- `delay_days` as computed by `_schedule_file_deletion` (scheduler.py
lines 117-126): `None` counts as 0, conversion failures count as 0,
negatives clamp to 0. -/
def delayDaysOf (task : PyObj) : Int :=
  match pyGetattr task "delete_delay_days" PyVal.none with
  | PyVal.none => 0
  | v => let d := pyIntValOrZero v
         if d < 0 then 0 else d

/-- `base_type` (scheduler.py line 128): `(getattr(...) or "SYNC_COMPLETE").upper()`.
A non-string truthy value would raise `AttributeError` on `.upper()`;
unreachable for task objects, whose attribute is a string when present.
`.upper()` is embedded as the per-character ASCII uppercase map over the
string's characters, which agrees with Python on the ASCII attribute values
in use. -/
def timeBaseOf (task : PyObj) : String :=
  ⟨(match pyGetattr task "delete_time_base" (PyVal.str "SYNC_COMPLETE") with
    | PyVal.str s => if s = "" then "SYNC_COMPLETE" else s
    | _ => "SYNC_COMPLETE").data.map Char.toUpper⟩

/-- `task.id`: a plain attribute access; every task object carries a string
id. -/
def pyIdOf (task : PyObj) : String :=
  match pyGetattr task "id" PyVal.none with
  | PyVal.str s => s
  | _ => ""

/-- `TaskScheduler._schedule_file_deletion` (scheduler.py lines 111-162):
return unless the task enables source deletion; compute the base time
(`stat().st_ctime` for FILE_CREATE — a failing stat logs and returns — else
the current time), add the clamped delay, and UPSERT the delete record. -/
def scheduleFileDeletion (task : PyObj) (sourceFile : String) (now : Nat)
    (w : World) : World :=
  if !(pyGetattr task "delete_source" (PyVal.bool false)).truthy then w
  else
    let baseType := timeBaseOf task
    match (if baseType = "FILE_CREATE" then (fsStat w.fs sourceFile).map FileMeta.ctime
           else some now) with
    | Option.none => w
    | some base =>
        let deleteAt := base + (delayDaysOf task).toNat * secondsPerDay
        let dp := (pyGetattr task "delete_parent" (PyVal.bool false)).truthy
        { w with db := addDeleteRecord w.db (pyIdOf task) sourceFile deleteAt dp baseType }

/-- The `status_map` of `_on_file_synced` (scheduler.py lines 167-176). -/
def statusMap (result : String) : String :=
  if result = "Success" then "SYNCED"
  else if result = "Skipped (Unchanged)" then "SKIPPED"
  else if result = "Skipped (Filtered)" then "SKIPPED"
  else if result = "Skipped (Ignored)" then "SKIPPED"
  else if result = "Skipped (Active)" then "PENDING"
  else if result = "Failed" then "FAILED"
  else "PENDING"

/-- `TaskScheduler._on_file_synced` (scheduler.py lines 164-203): upsert the
cache row and append history (both skipped when the stat raises, caught at
line 198), then schedule deletion for `Success` and `Skipped (Unchanged)`
outcomes. -/
def onFileSynced (task : PyObj) (sourceFile : String) (result : String)
    (now : Nat) (w : World) : World :=
  let syncStatus := statusMap result
  let errorMsg : Option String := if syncStatus = "FAILED" then some result else Option.none
  let w1 :=
    match fsStat w.fs sourceFile with
    | Option.none => w
    | some m =>
        let row : CacheRow :=
          ⟨pyIdOf task, sourceFile, m.size, m.mtime, syncStatus,
           (if syncStatus = "SYNCED" ∨ syncStatus = "SKIPPED" then some now
            else Option.none),
           Option.none, errorMsg⟩
        let details : Option String :=
          if syncStatus = "FAILED" then some result else Option.none
        let db2 := addHistoryRecord (upsertFileCache w.db row) (pyIdOf task)
          sourceFile syncStatus details
        { w with db := db2 }
  if result = "Success" ∨ result = "Skipped (Unchanged)" then
    scheduleFileDeletion task sourceFile now w1
  else w1

/-- The per-record loop state of `_process_delete_queue_for_task`
(scheduler.py lines 226-285): the evolving world plus `deleted_record_ids`
and `deleted_files`. -/
structure DrainAcc where
  w : World
  deletedIds : List Nat
  deletedFiles : List String
  deriving DecidableEq

/-- One iteration of the loop (scheduler.py lines 229-285): skip an empty
path; the SYNCED verification guard leaves the record on failure; an
existing path is unlinked, its cache row marked DELETED, history appended,
and the id collected; a missing path is collected silently.  The record's
path is a regular file in this model (the `IsADirectoryError` fallback is
not taken). -/
def drainStep (taskId : String) (now : Nat) (acc : DrainAcc) (r : DeleteRecord) :
    DrainAcc :=
  if r.sourcePath = "" then acc
  else if !(isFileSynced acc.w.db taskId r.sourcePath) then acc
  else if (fsStat acc.w.fs r.sourcePath).isSome then
    let db2 := addHistoryRecord
      (updateSyncStatus acc.w.db taskId r.sourcePath "DELETED" (some now))
      taskId r.sourcePath "DELETED" Option.none
    { w := ⟨db2, fsRemove acc.w.fs r.sourcePath⟩
      deletedIds := acc.deletedIds ++ [r.rid]
      deletedFiles := acc.deletedFiles ++ [r.sourcePath] }
  else
    { acc with deletedIds := acc.deletedIds ++ [r.rid] }

/-- `TaskScheduler._process_delete_queue_for_task` (scheduler.py lines
205-308): query the task's mature records, run the loop, remove the
collected ids.  The `_cleanup_parent_dirs_for_deleted` call that follows
(line 295) returns immediately when the task's `delete_parent` flag is
absent or falsy (line 313); the pruning walk it performs for `delete_parent`
tasks removes only directories and is not modelled — every theorem below
involving this function carries the hypothesis that `delete_parent` is
falsy, under which the embedding is exact. -/
def processDeleteQueueForTask (task : PyObj) (now : Nat) (w : World) : World :=
  let expired := getExpiredRecords w.db (pyIdOf task) now
  let acc := expired.foldl (drainStep (pyIdOf task) now) ⟨w, [], []⟩
  { acc.w with db := removeDeleteRecordsById acc.w.db acc.deletedIds }

/-- One per-file outcome callback of a sync run: path, result string, and
the wall-clock instant of the callback. -/
structure FileEvent where
  path : String
  result : String
  time : Nat
  deriving DecidableEq

/-- The per-file result callbacks fired by `sync_directory` during one run,
in order (scheduler.py line 890 wires `_on_file_synced`). -/
def runSyncOutcomes (task : PyObj) (events : List FileEvent) (w : World) : World :=
  events.foldl (fun acc e => onFileSynced task e.path e.result e.time acc) w

/-- `TaskScheduler._execute_sync_task` (scheduler.py lines 835-941)
restricted to its delete-queue effects: drain before the run (line 841),
fire the per-file callbacks, drain again after the run (line 896).  Status
transitions, progress caching and persistence touch neither the queue, the
cache nor the source tree. -/
def executeSyncTask (task : PyObj) (tPre : Nat) (events : List FileEvent)
    (tPost : Nat) (w : World) : World :=
  processDeleteQueueForTask task tPost
    (runSyncOutcomes task events (processDeleteQueueForTask task tPre w))

/-- Well-formedness of the delete queue maintained by the store: ids are
unique (`INTEGER PRIMARY KEY AUTOINCREMENT`), paths are unique
(`source_path TEXT NOT NULL UNIQUE`), and the autoincrement cursor exceeds
every existing id. -/
def DbWF (db : Db) : Prop :=
  (db.deleteQueue.map (fun r => r.rid)).Nodup ∧
  (db.deleteQueue.map (fun r => r.sourcePath)).Nodup ∧
  ∀ r ∈ db.deleteQueue, r.rid < db.nextId

instance (db : Db) : Decidable (DbWF db) :=
  inferInstanceAs (Decidable (_ ∧ _ ∧ _))

/-! ### Claim C2: sync outcomes never enqueue deletion for src's `SyncTask` -/

theorem pyHasattr_pySetattr (t : PyObj) (k a : String) (v : PyVal) :
    pyHasattr (pySetattr t k v) a = (decide (a = k) || pyHasattr t a) := by
  induction t with
  | nil => simp [pySetattr, pyHasattr, eq_comm]
  | cons e rest ih =>
      by_cases he : e.1 = k
      · subst he
        by_cases ha : a = e.1
        · simp [pySetattr, pyHasattr, ha]
        · have ha2 : ¬e.1 = a := fun hh => ha hh.symm
          simp [pySetattr, pyHasattr, ha, ha2]
      · simp [pySetattr, he, pyHasattr, ih, Bool.or_left_comm]

theorem pyHasattr_updateTaskPatch (t : PyObj) (patch : List (String × PyVal))
    (a : String) : pyHasattr (updateTaskPatch t patch) a = pyHasattr t a := by
  induction patch generalizing t with
  | nil => rfl
  | cons kv rest ih =>
      have hstep : updateTaskPatch t (kv :: rest) =
          updateTaskPatch (if pyHasattr t kv.1 then pySetattr t kv.1 kv.2 else t) rest := rfl
      rw [hstep, ih]
      by_cases hk : pyHasattr t kv.1 = true
      · rw [if_pos hk, pyHasattr_pySetattr]
        by_cases ha : a = kv.1
        · subst ha
          simp [hk]
        · simp [ha]
      · rw [if_neg hk]

theorem pyGetattr_default (t : PyObj) (a : String) (d : PyVal)
    (h : pyHasattr t a = false) : pyGetattr t a d = d := by
  induction t with
  | nil => rfl
  | cons e rest ih =>
      simp only [pyHasattr, Bool.or_eq_false_iff, decide_eq_false_iff_not] at h
      simp [pyGetattr, h.1, ih h.2]

theorem pyHasattr_syncTaskInit_delete_source (p : SyncTaskParams) (f : String)
    (t : PyObj) (h : syncTaskInit p f = some t) :
    pyHasattr t "delete_source" = false := by
  unfold syncTaskInit at h
  cases hs : scheduleTypeOf p.schedule_type with
  | none =>
      rw [hs] at h
      exact absurd h (by simp)
  | some sv =>
      cases ht : taskStatusOf p.status with
      | none =>
          rw [hs, ht] at h
          exact absurd h (by simp)
      | some tv =>
          rw [hs, ht] at h
          simp only [Option.some.injEq] at h
          subst h
          rfl

theorem fromDict_origin (d : PyObj) (f : String) (t : PyObj)
    (h : fromDict d f = some t) : ∃ p, syncTaskInit p f = some t := by
  unfold fromDict at h
  cases hx : pyGetattr d "name" PyVal.none <;> rw [hx] at h <;>
    cases hy : pyGetattr d "source_path" PyVal.none <;> rw [hy] at h <;>
      cases hz : pyGetattr d "target_path" PyVal.none <;> rw [hz] at h <;>
        first
          | exact ⟨_, h⟩
          | simp at h

theorem scheduleFileDeletion_disabled (task : PyObj) (p : String) (now : Nat)
    (w : World)
    (h : (pyGetattr task "delete_source" (PyVal.bool false)).truthy = false) :
    scheduleFileDeletion task p now w = w := by
  unfold scheduleFileDeletion
  rw [h]
  rfl

theorem upsertFileCache_deleteQueue (db : Db) (row : CacheRow) :
    (upsertFileCache db row).deleteQueue = db.deleteQueue := by
  unfold upsertFileCache
  by_cases h : db.fileCache.any (fun c => c.taskId == row.taskId && c.path == row.path) = true
  · rw [if_pos h]
  · rw [if_neg h]

theorem onFileSynced_queue_frame (task : PyObj) (p result : String) (now : Nat)
    (w : World)
    (hds : (pyGetattr task "delete_source" (PyVal.bool false)).truthy = false) :
    (onFileSynced task p result now w).db.deleteQueue = w.db.deleteQueue := by
  have hsd : ∀ w2, scheduleFileDeletion task p now w2 = w2 :=
    fun w2 => scheduleFileDeletion_disabled task p now w2 hds
  unfold onFileSynced
  cases hm : fsStat w.fs p with
  | none => simp [hm, hsd]
  | some m => simp [hm, hsd, upsertFileCache_deleteQueue, addHistoryRecord]

/-- C2 (confirmed).  For every `SyncTask` built by the constructor or
`from_dict` of src/core/models.py and then patched by any sequence of
`update_task` field assignments, the file-synced outcome callback never
inserts a delete record: the class defines no `delete_source` attribute,
`update_task` assigns only attributes that already exist (`hasattr` guard,
scheduler.py line 660), and `_schedule_file_deletion` reads `delete_source`
via `getattr` with default `False` (line 114) and returns immediately, so
the delete queue is unchanged by every outcome. -/
theorem sync_outcome_never_inserts_delete_record (t0 : PyObj)
    (horigin : (∃ p f, syncTaskInit p f = some t0) ∨ (∃ d f, fromDict d f = some t0))
    (patch : List (String × PyVal)) (path result : String) (now : Nat) (w : World) :
    (onFileSynced (updateTaskPatch t0 patch) path result now w).db.deleteQueue =
      w.db.deleteQueue := by
  have hh : pyHasattr t0 "delete_source" = false := by
    rcases horigin with ⟨p, f, hp⟩ | ⟨d, f, hd⟩
    · exact pyHasattr_syncTaskInit_delete_source p f t0 hp
    · obtain ⟨p, hp⟩ := fromDict_origin d f t0 hd
      exact pyHasattr_syncTaskInit_delete_source p f t0 hp
  have hh2 : pyHasattr (updateTaskPatch t0 patch) "delete_source" = false := by
    rw [pyHasattr_updateTaskPatch]
    exact hh
  have hds : (pyGetattr (updateTaskPatch t0 patch) "delete_source"
      (PyVal.bool false)).truthy = false := by
    rw [pyGetattr_default _ _ _ hh2]
    rfl
  exact onFileSynced_queue_frame _ _ _ _ _ hds

/-- Witness for `sync_outcome_never_inserts_delete_record`: a constructor
instance patched with `delete_source := true` (which the `hasattr` guard
drops) still enqueues nothing on a `Success` outcome over a world with one
source file and an empty queue. -/
theorem sync_outcome_never_inserts_delete_record_witness :
    (onFileSynced
      (updateTaskPatch
        ((syncTaskInit
          ⟨"t", "/s", "/d", 300, "INTERVAL", Option.none, Option.none, "IDLE",
            Option.none, true, false, 1, false, false, false, false,
            Option.none, Option.none, "NONE", Option.none⟩ "id1").getD [])
        [("delete_source", PyVal.bool true), ("delete_delay_days", PyVal.int 0)])
      "/s/a.mkv" "Success" 5
      ⟨⟨[], 1, [], []⟩, [("/s/a.mkv", ⟨100, 2, 1⟩)]⟩).db.deleteQueue = [] := by
  have h := sync_outcome_never_inserts_delete_record
    ((syncTaskInit
      ⟨"t", "/s", "/d", 300, "INTERVAL", Option.none, Option.none, "IDLE",
        Option.none, true, false, 1, false, false, false, false,
        Option.none, Option.none, "NONE", Option.none⟩ "id1").getD [])
    (Or.inl ⟨⟨"t", "/s", "/d", 300, "INTERVAL", Option.none, Option.none, "IDLE",
        Option.none, true, false, 1, false, false, false, false,
        Option.none, Option.none, "NONE", Option.none⟩, "id1", rfl⟩)
    [("delete_source", PyVal.bool true), ("delete_delay_days", PyVal.int 0)]
    "/s/a.mkv" "Success" 5
    ⟨⟨[], 1, [], []⟩, [("/s/a.mkv", ⟨100, 2, 1⟩)]⟩
  exact h

/-! ### Drain-loop lemmas -/

theorem fsStat_fsRemove (fs : List (String × FileMeta)) (q p : String) :
    fsStat (fsRemove fs q) p = if p = q then Option.none else fsStat fs p := by
  induction fs with
  | nil => by_cases h : p = q <;> simp [fsRemove, fsStat, h]
  | cons e t ih =>
      by_cases he : e.1 = q
      · have hstep : fsRemove (e :: t) q = fsRemove t q := by
          simp [fsRemove, List.filter_cons, he]
        rw [hstep, ih]
        by_cases hp : p = q
        · simp [hp]
        · have : ¬e.1 = p := fun hh => hp (hh ▸ he)
          simp [hp, fsStat, this]
      · have hstep : fsRemove (e :: t) q = e :: fsRemove t q := by
          simp [fsRemove, List.filter_cons, he]
        rw [hstep]
        by_cases hp : e.1 = p
        · have hpq : ¬p = q := fun hh => he (by rw [hp, hh])
          rw [fsStat, if_pos hp, if_neg hpq, fsStat, if_pos hp]
        · rw [fsStat, if_neg hp, ih]
          by_cases hq : p = q
          · rw [if_pos hq, if_pos hq]
          · rw [if_neg hq, if_neg hq, fsStat, if_neg hp]

theorem fsStat_some_mem (fs : List (String × FileMeta)) (p : String) (m : FileMeta)
    (h : fsStat fs p = some m) : (p, m) ∈ fs := by
  induction fs with
  | nil => simp [fsStat] at h
  | cons e t ih =>
      by_cases he : e.1 = p
      · rw [fsStat, if_pos he] at h
        obtain ⟨a, b⟩ := e
        have hb : (a, b).2 = m := Option.some.inj h
        subst he
        subst hb
        exact List.mem_cons_self _ _
      · rw [fsStat, if_neg he] at h
        exact List.mem_cons_of_mem e (ih h)

theorem isFileSynced_eq_of_cache (db1 db2 : Db) (tid p : String)
    (h : db1.fileCache = db2.fileCache) :
    isFileSynced db1 tid p = isFileSynced db2 tid p := by
  unfold isFileSynced
  rw [h]


theorem anyCongr {α : Type} (l : List α) (f g : α → Bool)
    (h : ∀ a ∈ l, f a = g a) : l.any f = l.any g := by
  induction l with
  | nil => rfl
  | cons x t ih =>
      simp only [List.any_cons]
      rw [h x (List.mem_cons_self x t), ih (fun a ha => h a (List.mem_cons_of_mem x ha))]

theorem isFileSynced_updateSyncStatus_ne (db : Db) (tid q status : String)
    (da : Option Nat) (tid2 p : String) (hne : p ≠ q) :
    isFileSynced (updateSyncStatus db tid q status da) tid2 p =
      isFileSynced db tid2 p := by
  unfold isFileSynced updateSyncStatus
  simp only [List.any_map]
  refine anyCongr _ _ _ (fun c _ => ?_)
  by_cases hm : (c.taskId == tid && c.path == q) = true
  · have hq : c.path = q := by
      simp only [Bool.and_eq_true, beq_iff_eq] at hm
      exact hm.2
    have hf : (c.path == p) = false := by
      rw [hq]
      exact beq_eq_false_iff_ne.mpr (fun hh => hne hh.symm)
    simp only [Function.comp_apply, if_pos hm]
    simp [hf]
  · simp only [Function.comp_apply, if_neg hm]

theorem isFileSynced_upsertFileCache_ne (db : Db) (row : CacheRow)
    (tid2 p : String) (hne : p ≠ row.path) :
    isFileSynced (upsertFileCache db row) tid2 p = isFileSynced db tid2 p := by
  have hf : (row.path == p) = false :=
    beq_eq_false_iff_ne.mpr (fun hh => hne hh.symm)
  unfold isFileSynced upsertFileCache
  by_cases hb : db.fileCache.any (fun c => c.taskId == row.taskId && c.path == row.path) = true
  · rw [if_pos hb]
    simp only [List.any_map]
    refine anyCongr _ _ _ (fun c _ => ?_)
    by_cases hm : (c.taskId == row.taskId && c.path == row.path) = true
    · have hq : c.path = row.path := by
        simp only [Bool.and_eq_true, beq_iff_eq] at hm
        exact hm.2
      have hcf : (c.path == p) = false := by rw [hq]; exact hf
      simp only [Function.comp_apply, if_pos hm]
      simp [hf, hcf]
    · simp only [Function.comp_apply, if_neg hm]
  · rw [if_neg hb]
    simp only [List.any_append, List.any_cons, List.any_nil, hf]
    simp

theorem isFileSynced_upsertFileCache_self (db : Db) (row : CacheRow)
    (hst : row.syncStatus = "SYNCED") :
    isFileSynced (upsertFileCache db row) row.taskId row.path = true := by
  unfold isFileSynced upsertFileCache
  by_cases hb : db.fileCache.any (fun c => c.taskId == row.taskId && c.path == row.path) = true
  · rw [if_pos hb]
    rw [List.any_eq_true] at hb
    obtain ⟨c, hc, hcprop⟩ := hb
    rw [List.any_eq_true]
    refine ⟨row, List.mem_map.mpr ⟨c, hc, by rw [if_pos hcprop]⟩, ?_⟩
    simp [hst]
  · rw [if_neg hb]
    rw [List.any_eq_true]
    exact ⟨row, List.mem_append_right _ (List.mem_singleton.mpr rfl), by simp [hst]⟩

theorem addHistoryRecord_fileCache (db : Db) (a b c : String) (d : Option String) :
    (addHistoryRecord db a b c d).fileCache = db.fileCache := rfl

theorem addHistoryRecord_deleteQueue (db : Db) (a b c : String) (d : Option String) :
    (addHistoryRecord db a b c d).deleteQueue = db.deleteQueue := rfl

theorem updateSyncStatus_deleteQueue (db : Db) (a b c : String) (d : Option Nat) :
    (updateSyncStatus db a b c d).deleteQueue = db.deleteQueue := rfl

theorem upsertFileCache_fileCache_sub (db : Db) (row : CacheRow) :
    (upsertFileCache db row).deleteQueue = db.deleteQueue := by
  unfold upsertFileCache
  by_cases hb : db.fileCache.any (fun c => c.taskId == row.taskId && c.path == row.path) = true
  · rw [if_pos hb]
  · rw [if_neg hb]

theorem addDeleteRecord_fileCache (db : Db) (tid sp : String) (da : Nat)
    (dp : Bool) (tb : String) :
    (addDeleteRecord db tid sp da dp tb).fileCache = db.fileCache := by
  unfold addDeleteRecord
  by_cases hb : db.deleteQueue.any (fun r => r.sourcePath == sp) = true
  · rw [if_pos hb]
  · rw [if_neg hb]

theorem scheduleFileDeletion_fs (task : PyObj) (p : String) (now : Nat) (w : World) :
    (scheduleFileDeletion task p now w).fs = w.fs := by
  unfold scheduleFileDeletion
  split
  · rfl
  · dsimp only
    split
    · rfl
    · rfl

theorem scheduleFileDeletion_fileCache (task : PyObj) (p : String) (now : Nat) (w : World) :
    (scheduleFileDeletion task p now w).db.fileCache = w.db.fileCache := by
  unfold scheduleFileDeletion
  split
  · rfl
  · dsimp only
    split
    · rfl
    · exact addDeleteRecord_fileCache _ _ _ _ _ _

theorem drainStep_queue (taskId : String) (now : Nat) (acc : DrainAcc)
    (r : DeleteRecord) :
    (drainStep taskId now acc r).w.db.deleteQueue = acc.w.db.deleteQueue := by
  unfold drainStep
  split
  · rfl
  · split
    · rfl
    · split
      · rfl
      · rfl

theorem drainStep_nextId (taskId : String) (now : Nat) (acc : DrainAcc)
    (r : DeleteRecord) :
    (drainStep taskId now acc r).w.db.nextId = acc.w.db.nextId := by
  unfold drainStep
  split
  · rfl
  · split
    · rfl
    · split
      · rfl
      · rfl

theorem drainStep_fs_ne (taskId : String) (now : Nat) (acc : DrainAcc)
    (r : DeleteRecord) (p : String) (hne : p ≠ r.sourcePath) :
    fsStat (drainStep taskId now acc r).w.fs p = fsStat acc.w.fs p := by
  unfold drainStep
  split
  · rfl
  · split
    · rfl
    · split
      · dsimp only
        rw [fsStat_fsRemove, if_neg hne]
      · rfl

theorem drainStep_synced_ne (taskId : String) (now : Nat) (acc : DrainAcc)
    (r : DeleteRecord) (p tid2 : String) (hne : p ≠ r.sourcePath) :
    isFileSynced (drainStep taskId now acc r).w.db tid2 p =
      isFileSynced acc.w.db tid2 p := by
  unfold drainStep
  split
  · rfl
  · split
    · rfl
    · split
      · dsimp only
        rw [isFileSynced_eq_of_cache _ _ _ _ (addHistoryRecord_fileCache _ _ _ _ _)]
        exact isFileSynced_updateSyncStatus_ne _ _ _ _ _ _ _ hne
      · rfl

theorem drainStep_ids (taskId : String) (now : Nat) (acc : DrainAcc)
    (r : DeleteRecord) :
    (drainStep taskId now acc r).deletedIds =
      acc.deletedIds ++
        (if (!(r.sourcePath == "") && isFileSynced acc.w.db taskId r.sourcePath) = true
         then [r.rid] else []) := by
  by_cases h1 : r.sourcePath = ""
  · simp [drainStep, h1]
  · have hb1 : (r.sourcePath == "") = false := beq_eq_false_iff_ne.mpr h1
    cases h2 : isFileSynced acc.w.db taskId r.sourcePath with
    | false => simp [drainStep, h1, h2, hb1]
    | true =>
        by_cases h3 : (fsStat acc.w.fs r.sourcePath).isSome = true
        · simp [drainStep, h1, h2, h3, hb1]
        · simp [drainStep, h1, h2, h3, hb1]

theorem drainStep_w_of_guard_false (taskId : String) (now : Nat) (acc : DrainAcc)
    (r : DeleteRecord) (p : String) (hx : r.sourcePath = p)
    (hg : isFileSynced acc.w.db taskId p = false) :
    (drainStep taskId now acc r).w = acc.w := by
  unfold drainStep
  by_cases h1 : r.sourcePath = ""
  · rw [if_pos h1]
  · rw [if_neg h1,
      if_pos (show (!(isFileSynced acc.w.db taskId r.sourcePath)) = true by
        rw [hx, hg]; rfl)]

theorem drainStep_fs_self_none (taskId : String) (now : Nat) (acc : DrainAcc)
    (r : DeleteRecord) (hp : r.sourcePath ≠ "")
    (hg : isFileSynced acc.w.db taskId r.sourcePath = true) :
    fsStat (drainStep taskId now acc r).w.fs r.sourcePath = Option.none := by
  unfold drainStep
  rw [if_neg hp,
    if_neg (show ¬((!(isFileSynced acc.w.db taskId r.sourcePath)) = true) by
      rw [hg]; simp)]
  by_cases h3 : (fsStat acc.w.fs r.sourcePath).isSome = true
  · rw [if_pos h3]
    dsimp only
    rw [fsStat_fsRemove, if_pos rfl]
  · rw [if_neg h3]
    exact Option.not_isSome_iff_eq_none.mp h3

theorem drainFold_queue (taskId : String) (now : Nat) (l : List DeleteRecord)
    (acc : DrainAcc) :
    (l.foldl (drainStep taskId now) acc).w.db.deleteQueue =
      acc.w.db.deleteQueue := by
  induction l generalizing acc with
  | nil => rfl
  | cons x t ih =>
      rw [List.foldl_cons, ih, drainStep_queue]

theorem drainFold_nextId (taskId : String) (now : Nat) (l : List DeleteRecord)
    (acc : DrainAcc) :
    (l.foldl (drainStep taskId now) acc).w.db.nextId = acc.w.db.nextId := by
  induction l generalizing acc with
  | nil => rfl
  | cons x t ih =>
      rw [List.foldl_cons, ih, drainStep_nextId]

theorem drainFold_guard_false (taskId : String) (now : Nat) (p : String)
    (l : List DeleteRecord) (acc : DrainAcc)
    (hg : isFileSynced acc.w.db taskId p = false) :
    fsStat (l.foldl (drainStep taskId now) acc).w.fs p = fsStat acc.w.fs p ∧
      isFileSynced (l.foldl (drainStep taskId now) acc).w.db taskId p = false := by
  induction l generalizing acc with
  | nil => exact ⟨rfl, hg⟩
  | cons x t ih =>
      rw [List.foldl_cons]
      by_cases hx : x.sourcePath = p
      · have hw : (drainStep taskId now acc x).w = acc.w :=
          drainStep_w_of_guard_false taskId now acc x p hx hg
        have hg2 : isFileSynced (drainStep taskId now acc x).w.db taskId p = false := by
          rw [hw]; exact hg
        obtain ⟨h1, h2⟩ := ih (drainStep taskId now acc x) hg2
        exact ⟨by rw [h1, hw], h2⟩
      · have hne : p ≠ x.sourcePath := fun hh => hx hh.symm
        have hg2 : isFileSynced (drainStep taskId now acc x).w.db taskId p = false := by
          rw [drainStep_synced_ne taskId now acc x p taskId hne]; exact hg
        obtain ⟨h1, h2⟩ := ih (drainStep taskId now acc x) hg2
        exact ⟨by rw [h1, drainStep_fs_ne taskId now acc x p hne], h2⟩

theorem drainFold_fs_not_mentioned (taskId : String) (now : Nat) (p : String)
    (l : List DeleteRecord) (acc : DrainAcc)
    (h : ∀ x ∈ l, x.sourcePath ≠ p) :
    fsStat (l.foldl (drainStep taskId now) acc).w.fs p = fsStat acc.w.fs p := by
  induction l generalizing acc with
  | nil => rfl
  | cons x t ih =>
      rw [List.foldl_cons,
        ih (drainStep taskId now acc x) (fun y hy => h y (List.mem_cons_of_mem x hy)),
        drainStep_fs_ne taskId now acc x p
          (fun hh => h x (List.mem_cons_self x t) hh.symm)]

theorem drainFold_ids (taskId : String) (now : Nat) (l : List DeleteRecord)
    (acc : DrainAcc) (hdist : (l.map (fun r => r.sourcePath)).Nodup) :
    (l.foldl (drainStep taskId now) acc).deletedIds =
      acc.deletedIds ++
        (l.filter (fun r =>
          !(r.sourcePath == "") && isFileSynced acc.w.db taskId r.sourcePath)).map
          (fun r => r.rid) := by
  induction l generalizing acc with
  | nil => simp
  | cons x t ih =>
      rw [List.map_cons, List.nodup_cons] at hdist
      obtain ⟨hxnot, hdist2⟩ := hdist
      rw [List.foldl_cons]
      have hfe : t.filter (fun r => !(r.sourcePath == "") &&
            isFileSynced (drainStep taskId now acc x).w.db taskId r.sourcePath) =
          t.filter (fun r => !(r.sourcePath == "") &&
            isFileSynced acc.w.db taskId r.sourcePath) := by
        refine List.filter_congr (fun y hy => ?_)
        have hne : y.sourcePath ≠ x.sourcePath := fun hh =>
          hxnot (hh ▸ List.mem_map_of_mem (fun r => r.sourcePath) hy)
        rw [drainStep_synced_ne taskId now acc x y.sourcePath taskId hne]
      rw [ih _ hdist2, hfe, drainStep_ids, List.filter_cons]
      by_cases hg : (!(x.sourcePath == "") && isFileSynced acc.w.db taskId x.sourcePath) = true
      · rw [if_pos hg, if_pos hg, List.map_cons, List.append_assoc]
        rfl
      · rw [if_neg hg, if_neg hg, List.append_nil]

theorem drainFold_fs_none (taskId : String) (now : Nat) (l : List DeleteRecord)
    (acc : DrainAcc) (r : DeleteRecord)
    (hdist : (l.map (fun x => x.sourcePath)).Nodup) (hr : r ∈ l)
    (hp : r.sourcePath ≠ "")
    (hg : isFileSynced acc.w.db taskId r.sourcePath = true) :
    fsStat (l.foldl (drainStep taskId now) acc).w.fs r.sourcePath = Option.none := by
  induction l generalizing acc with
  | nil => exact absurd hr (List.not_mem_nil r)
  | cons x t ih =>
      rw [List.map_cons, List.nodup_cons] at hdist
      obtain ⟨hxnot, hdist2⟩ := hdist
      rw [List.foldl_cons]
      rcases List.mem_cons.mp hr with hrx | hrt
      · subst hrx
        have hnone : fsStat (drainStep taskId now acc r).w.fs r.sourcePath = Option.none :=
          drainStep_fs_self_none taskId now acc r hp hg
        rw [drainFold_fs_not_mentioned taskId now r.sourcePath t _
          (fun y hy hh => hxnot (hh ▸ List.mem_map_of_mem (fun x => x.sourcePath) hy))]
        exact hnone
      · have hne : r.sourcePath ≠ x.sourcePath := fun hh =>
          hxnot (hh ▸ List.mem_map_of_mem (fun x => x.sourcePath) hrt)
        have hg2 : isFileSynced (drainStep taskId now acc x).w.db taskId r.sourcePath = true := by
          rw [drainStep_synced_ne taskId now acc x r.sourcePath taskId hne]; exact hg
        exact ih (drainStep taskId now acc x) hdist2 hrt hg2

theorem insertByDeleteAt_perm (r : DeleteRecord) (l : List DeleteRecord) :
    (insertByDeleteAt r l).Perm (r :: l) := by
  induction l with
  | nil => exact List.Perm.refl _
  | cons x t ih =>
      unfold insertByDeleteAt
      by_cases h : r.deleteAt ≤ x.deleteAt
      · rw [if_pos h]
      · rw [if_neg h]
        exact (List.Perm.cons x ih).trans (List.Perm.swap r x t)

theorem sortByDeleteAt_perm (l : List DeleteRecord) : (sortByDeleteAt l).Perm l := by
  induction l with
  | nil => exact List.Perm.refl _
  | cons x t ih =>
      have hstep : sortByDeleteAt (x :: t) = insertByDeleteAt x (sortByDeleteAt t) := rfl
      rw [hstep]
      exact (insertByDeleteAt_perm x (sortByDeleteAt t)).trans (List.Perm.cons x ih)

theorem mem_getExpiredRecords (db : Db) (tid : String) (now : Nat)
    (x : DeleteRecord) :
    x ∈ getExpiredRecords db tid now ↔
      x ∈ db.deleteQueue ∧ x.taskId = tid ∧ x.deleteAt ≤ now := by
  unfold getExpiredRecords
  rw [(sortByDeleteAt_perm _).mem_iff, List.mem_filter]
  simp [and_assoc]

theorem getExpiredRecords_paths_nodup (db : Db) (tid : String) (now : Nat)
    (h : (db.deleteQueue.map (fun r => r.sourcePath)).Nodup) :
    ((getExpiredRecords db tid now).map (fun r => r.sourcePath)).Nodup := by
  unfold getExpiredRecords
  refine (List.Perm.nodup_iff (List.Perm.map _ (sortByDeleteAt_perm _))).mpr ?_
  exact List.Nodup.sublist (List.Sublist.map _ (List.filter_sublist _)) h

theorem contains_iff_mem (l : List Nat) (a : Nat) : l.contains a = true ↔ a ∈ l :=
  List.elem_iff

theorem removeDeleteRecordsById_mem (db : Db) (ids : List Nat) (x : DeleteRecord) :
    x ∈ (removeDeleteRecordsById db ids).deleteQueue ↔
      x ∈ db.deleteQueue ∧ ¬(x.rid ∈ ids) := by
  unfold removeDeleteRecordsById
  by_cases hie : ids.isEmpty = true
  · rw [if_pos hie, List.isEmpty_iff.mp hie]
    simp
  · rw [if_neg hie]
    simp only [List.mem_filter, Bool.not_eq_true']
    constructor
    · rintro ⟨hmem, hc⟩
      refine ⟨hmem, fun hin => ?_⟩
      rw [(contains_iff_mem ids x.rid).mpr hin] at hc
      simp at hc
    · rintro ⟨hmem, hnin⟩
      refine ⟨hmem, ?_⟩
      cases hc : ids.contains x.rid with
      | false => rfl
      | true => exact absurd ((contains_iff_mem ids x.rid).mp hc) hnin

/-- Claim C5: a delete record is discharged — its source file removed and the
record dropped from the queue — only if it was mature (`delete_at ≤ now`) and
the file cache reported SYNCED for its path under the owning task before the
drain; a record whose path the cache does not report SYNCED is left in the
queue with its source file untouched. -/
theorem delete_discharge_requires_mature_synced (task : PyObj) (now : Nat)
    (w : World) (r : DeleteRecord)
    (hpar : (pyGetattr task "delete_parent" (PyVal.bool false)).truthy = false)
    (hwf : DbWF w.db) (hr : r ∈ w.db.deleteQueue) :
    (r ∉ (processDeleteQueueForTask task now w).db.deleteQueue →
       r.deleteAt ≤ now ∧
       isFileSynced w.db (pyIdOf task) r.sourcePath = true) ∧
    (isFileSynced w.db (pyIdOf task) r.sourcePath = false →
       r ∈ (processDeleteQueueForTask task now w).db.deleteQueue ∧
       fsStat (processDeleteQueueForTask task now w).fs r.sourcePath =
         fsStat w.fs r.sourcePath) := by
  obtain ⟨hrid, hpath, hbound⟩ := hwf
  set tid := pyIdOf task with htid
  set expired := getExpiredRecords w.db tid now with hexp
  set acc0 : DrainAcc := ⟨w, [], []⟩ with hacc0
  set acc := expired.foldl (drainStep tid now) acc0 with hacc
  have hfin : processDeleteQueueForTask task now w =
      { acc.w with db := removeDeleteRecordsById acc.w.db acc.deletedIds } := rfl
  have hdist : (expired.map (fun x => x.sourcePath)).Nodup := by
    rw [hexp]
    exact getExpiredRecords_paths_nodup w.db tid now hpath
  have hids : acc.deletedIds =
      (expired.filter (fun x =>
        !(x.sourcePath == "") && isFileSynced w.db tid x.sourcePath)).map
        (fun x => x.rid) := by
    rw [hacc]
    exact (drainFold_ids tid now expired acc0 hdist).trans rfl
  have hql : acc.w.db.deleteQueue = w.db.deleteQueue := by
    rw [hacc]
    exact (drainFold_queue tid now expired acc0).trans rfl
  have hqmem : ∀ x, x ∈ (processDeleteQueueForTask task now w).db.deleteQueue ↔
      x ∈ w.db.deleteQueue ∧ ¬(x.rid ∈ acc.deletedIds) := by
    intro x
    rw [hfin]
    show x ∈ (removeDeleteRecordsById acc.w.db acc.deletedIds).deleteQueue ↔ _
    rw [removeDeleteRecordsById_mem, hql]
  have hinj := List.inj_on_of_nodup_map hrid
  constructor
  · intro hout
    have hridmem : r.rid ∈ acc.deletedIds := by
      by_contra hno
      exact hout ((hqmem r).mpr ⟨hr, hno⟩)
    rw [hids] at hridmem
    obtain ⟨x, hxf, hxr⟩ := List.mem_map.mp hridmem
    obtain ⟨hxe, hxg⟩ := List.mem_filter.mp hxf
    have hxq : x ∈ w.db.deleteQueue ∧ x.taskId = tid ∧ x.deleteAt ≤ now := by
      rw [hexp] at hxe
      exact (mem_getExpiredRecords w.db tid now x).mp hxe
    have hxr2 : x = r := hinj hxq.1 hr hxr
    subst hxr2
    exact ⟨hxq.2.2, ((Bool.and_eq_true _ _).mp hxg).2⟩
  · intro hg
    have hnoid : ¬(r.rid ∈ acc.deletedIds) := by
      intro hmem
      rw [hids] at hmem
      obtain ⟨x, hxf, hxr⟩ := List.mem_map.mp hmem
      obtain ⟨hxe, hxg⟩ := List.mem_filter.mp hxf
      have hxq : x ∈ w.db.deleteQueue ∧ x.taskId = tid ∧ x.deleteAt ≤ now := by
        rw [hexp] at hxe
        exact (mem_getExpiredRecords w.db tid now x).mp hxe
      have hxr2 : x = r := hinj hxq.1 hr hxr
      rw [hxr2] at hxg
      rw [((Bool.and_eq_true _ _).mp hxg).2] at hg
      simp at hg
    refine ⟨(hqmem r).mpr ⟨hr, hnoid⟩, ?_⟩
    have hfs : fsStat acc.w.fs r.sourcePath = fsStat w.fs r.sourcePath := by
      rw [hacc]
      have hg0 : isFileSynced acc0.w.db tid r.sourcePath = false := hg
      exact ((drainFold_guard_false tid now r.sourcePath expired acc0 hg0).1).trans rfl
    rw [hfin]
    exact hfs

theorem delete_discharge_requires_mature_synced_witness :
    (pyGetattr ([("id", PyVal.str "t1")] : PyObj) "delete_parent"
        (PyVal.bool false)).truthy = false ∧
    DbWF (⟨[⟨1, "t1", "/s/a.mkv", 10, false, "SYNC_COMPLETE"⟩], 2, [], []⟩ : Db) ∧
    (⟨1, "t1", "/s/a.mkv", 10, false, "SYNC_COMPLETE"⟩ : DeleteRecord) ∈
      (⟨[⟨1, "t1", "/s/a.mkv", 10, false, "SYNC_COMPLETE"⟩], 2, [], []⟩ : Db).deleteQueue ∧
    ((⟨1, "t1", "/s/a.mkv", 10, false, "SYNC_COMPLETE"⟩ : DeleteRecord) ∉
       (processDeleteQueueForTask ([("id", PyVal.str "t1")] : PyObj) 20
         ⟨⟨[⟨1, "t1", "/s/a.mkv", 10, false, "SYNC_COMPLETE"⟩], 2, [], []⟩,
          [("/s/a.mkv", ⟨100, 5, 3⟩)]⟩).db.deleteQueue →
       (⟨1, "t1", "/s/a.mkv", 10, false, "SYNC_COMPLETE"⟩ : DeleteRecord).deleteAt ≤ 20 ∧
       isFileSynced (⟨[⟨1, "t1", "/s/a.mkv", 10, false, "SYNC_COMPLETE"⟩], 2, [], []⟩ : Db)
         (pyIdOf ([("id", PyVal.str "t1")] : PyObj)) "/s/a.mkv" = true) ∧
    (isFileSynced (⟨[⟨1, "t1", "/s/a.mkv", 10, false, "SYNC_COMPLETE"⟩], 2, [], []⟩ : Db)
        (pyIdOf ([("id", PyVal.str "t1")] : PyObj)) "/s/a.mkv" = false →
       (⟨1, "t1", "/s/a.mkv", 10, false, "SYNC_COMPLETE"⟩ : DeleteRecord) ∈
         (processDeleteQueueForTask ([("id", PyVal.str "t1")] : PyObj) 20
           ⟨⟨[⟨1, "t1", "/s/a.mkv", 10, false, "SYNC_COMPLETE"⟩], 2, [], []⟩,
            [("/s/a.mkv", ⟨100, 5, 3⟩)]⟩).db.deleteQueue ∧
       fsStat (processDeleteQueueForTask ([("id", PyVal.str "t1")] : PyObj) 20
           ⟨⟨[⟨1, "t1", "/s/a.mkv", 10, false, "SYNC_COMPLETE"⟩], 2, [], []⟩,
            [("/s/a.mkv", ⟨100, 5, 3⟩)]⟩).fs "/s/a.mkv" =
         fsStat [("/s/a.mkv", (⟨100, 5, 3⟩ : FileMeta))] "/s/a.mkv") :=
  ⟨by decide, by decide, by decide,
   delete_discharge_requires_mature_synced
     ([("id", PyVal.str "t1")] : PyObj) 20
     ⟨⟨[⟨1, "t1", "/s/a.mkv", 10, false, "SYNC_COMPLETE"⟩], 2, [], []⟩,
      [("/s/a.mkv", ⟨100, 5, 3⟩)]⟩
     ⟨1, "t1", "/s/a.mkv", 10, false, "SYNC_COMPLETE"⟩
     (by decide) (by decide) (by decide)⟩

/-! ### Event-fold lemmas for the same-run discharge claim -/

theorem upsertFileCache_nextId (db : Db) (row : CacheRow) :
    (upsertFileCache db row).nextId = db.nextId := by
  unfold upsertFileCache
  split
  · rfl
  · rfl

theorem addHistoryRecord_nextId (db : Db) (a b c : String) (d : Option String) :
    (addHistoryRecord db a b c d).nextId = db.nextId := rfl

theorem DbWF_of_eq (db1 db2 : Db) (hq : db1.deleteQueue = db2.deleteQueue)
    (hn : db1.nextId = db2.nextId) (h : DbWF db2) : DbWF db1 := by
  unfold DbWF
  rw [hq, hn]
  exact h

theorem addDeleteRecord_self_mem (db : Db) (tid p : String) (da : Nat) (dp : Bool)
    (tb : String) :
    (∃ x ∈ (addDeleteRecord db tid p da dp tb).deleteQueue,
       x.sourcePath = p ∧ x.taskId = tid ∧ x.deleteAt = da) ∧
    (∀ x ∈ (addDeleteRecord db tid p da dp tb).deleteQueue,
       x.sourcePath = p → x.taskId = tid ∧ x.deleteAt = da) := by
  unfold addDeleteRecord
  by_cases hany : db.deleteQueue.any (fun r => r.sourcePath == p) = true
  · rw [if_pos hany]
    constructor
    · obtain ⟨c, hc, hcp⟩ := List.any_eq_true.mp hany
      refine ⟨_, List.mem_map_of_mem _ hc, ?_⟩
      dsimp only
      rw [if_pos hcp]
      exact ⟨beq_iff_eq.mp hcp, rfl, rfl⟩
    · intro x hx hxp
      obtain ⟨c, hc, hfc⟩ := List.mem_map.mp hx
      by_cases hcp : (c.sourcePath == p) = true
      · rw [if_pos hcp] at hfc
        rw [← hfc]
        exact ⟨rfl, rfl⟩
      · rw [if_neg hcp] at hfc
        subst hfc
        exact absurd (beq_iff_eq.mpr hxp) hcp
  · rw [if_neg hany]
    constructor
    · exact ⟨⟨db.nextId, tid, p, da, dp, tb⟩,
        List.mem_append_right _ (List.mem_singleton.mpr rfl), rfl, rfl, rfl⟩
    · intro x hx hxp
      rcases List.mem_append.mp hx with hold | hnew
      · have hx2 : (db.deleteQueue.any (fun r => r.sourcePath == p)) = true :=
          List.any_eq_true.mpr ⟨x, hold, beq_iff_eq.mpr hxp⟩
        exact absurd hx2 hany
      · rw [List.mem_singleton.mp hnew]
        exact ⟨rfl, rfl⟩

theorem addDeleteRecord_other_mem (db : Db) (tid2 q : String) (da2 : Nat)
    (dp2 : Bool) (tb2 : String) (p : String) (hne : q ≠ p) (x : DeleteRecord) :
    (x ∈ (addDeleteRecord db tid2 q da2 dp2 tb2).deleteQueue ∧ x.sourcePath = p) ↔
      (x ∈ db.deleteQueue ∧ x.sourcePath = p) := by
  unfold addDeleteRecord
  by_cases hany : db.deleteQueue.any (fun r => r.sourcePath == q) = true
  · rw [if_pos hany]
    constructor
    · rintro ⟨hx, hxp⟩
      obtain ⟨c, hc, hfc⟩ := List.mem_map.mp hx
      by_cases hcq : (c.sourcePath == q) = true
      · rw [if_pos hcq] at hfc
        have hcq2 : c.sourcePath = q := beq_iff_eq.mp hcq
        rw [← hfc] at hxp
        have hcp : c.sourcePath = p := hxp
        exact absurd (hcq2.symm.trans hcp) hne
      · rw [if_neg hcq] at hfc
        subst hfc
        exact ⟨hc, hxp⟩
    · rintro ⟨hx, hxp⟩
      have hcq : (x.sourcePath == q) = false := by
        rw [beq_eq_false_iff_ne]
        intro hh
        exact hne (hh ▸ hxp)
      have hnq : ¬((x.sourcePath == q) = true) := by
        rw [hcq]
        exact Bool.false_ne_true
      refine ⟨List.mem_map.mpr ⟨x, hx, ?_⟩, hxp⟩
      dsimp only
      rw [if_neg hnq]
  · rw [if_neg hany]
    constructor
    · rintro ⟨hx, hxp⟩
      rcases List.mem_append.mp hx with hold | hnew
      · exact ⟨hold, hxp⟩
      · rw [List.mem_singleton.mp hnew] at hxp
        exact absurd hxp hne
    · rintro ⟨hx, hxp⟩
      exact ⟨List.mem_append_left _ hx, hxp⟩

theorem addDeleteRecord_WF (db : Db) (tid q : String) (da : Nat) (dp : Bool)
    (tb : String) (h : DbWF db) : DbWF (addDeleteRecord db tid q da dp tb) := by
  obtain ⟨hrid, hpath, hbound⟩ := h
  unfold addDeleteRecord
  by_cases hany : db.deleteQueue.any (fun r => r.sourcePath == q) = true
  · rw [if_pos hany]
    refine ⟨?_, ?_, ?_⟩
    · have hmm : db.deleteQueue.map ((fun r => r.rid) ∘ (fun r =>
          if r.sourcePath == q then
            { r with taskId := tid, deleteAt := da, deleteParent := dp, timeBase := tb }
          else r)) = db.deleteQueue.map (fun r => r.rid) := by
        refine List.map_congr_left (fun x _ => ?_)
        rw [Function.comp_apply]
        by_cases hxq : (x.sourcePath == q) = true
        · rw [if_pos hxq]
        · rw [if_neg hxq]
      show ((db.deleteQueue.map (fun r =>
          if r.sourcePath == q then
            { r with taskId := tid, deleteAt := da, deleteParent := dp, timeBase := tb }
          else r)).map (fun r => r.rid)).Nodup
      rw [List.map_map, hmm]
      exact hrid
    · have hmm : db.deleteQueue.map ((fun r => r.sourcePath) ∘ (fun r =>
          if r.sourcePath == q then
            { r with taskId := tid, deleteAt := da, deleteParent := dp, timeBase := tb }
          else r)) = db.deleteQueue.map (fun r => r.sourcePath) := by
        refine List.map_congr_left (fun x _ => ?_)
        rw [Function.comp_apply]
        by_cases hxq : (x.sourcePath == q) = true
        · rw [if_pos hxq]
        · rw [if_neg hxq]
      show ((db.deleteQueue.map (fun r =>
          if r.sourcePath == q then
            { r with taskId := tid, deleteAt := da, deleteParent := dp, timeBase := tb }
          else r)).map (fun r => r.sourcePath)).Nodup
      rw [List.map_map, hmm]
      exact hpath
    · intro r hr
      obtain ⟨c, hc, hfc⟩ := List.mem_map.mp hr
      have hrid2 : r.rid = c.rid := by
        by_cases hcq : (c.sourcePath == q) = true
        · rw [if_pos hcq] at hfc
          rw [← hfc]
        · rw [if_neg hcq] at hfc
          rw [← hfc]
      show r.rid < db.nextId
      rw [hrid2]
      exact hbound c hc
  · rw [if_neg hany]
    refine ⟨?_, ?_, ?_⟩
    · show ((db.deleteQueue ++ [(⟨db.nextId, tid, q, da, dp, tb⟩ : DeleteRecord)]).map
          (fun r => r.rid)).Nodup
      rw [List.map_append, List.map_singleton, List.nodup_append]
      refine ⟨hrid, List.nodup_singleton _, ?_⟩
      intro a ha hb
      rw [List.mem_singleton] at hb
      have hb2 : a = db.nextId := hb
      obtain ⟨c, hc, hca⟩ := List.mem_map.mp ha
      have hca2 : c.rid = a := hca
      have hlt := hbound c hc
      omega
    · show ((db.deleteQueue ++ [(⟨db.nextId, tid, q, da, dp, tb⟩ : DeleteRecord)]).map
          (fun r => r.sourcePath)).Nodup
      rw [List.map_append, List.map_singleton, List.nodup_append]
      refine ⟨hpath, List.nodup_singleton _, ?_⟩
      intro a ha hb
      rw [List.mem_singleton] at hb
      have hb2 : a = q := hb
      obtain ⟨c, hc, hca⟩ := List.mem_map.mp ha
      have hca2 : c.sourcePath = a := hca
      have hcq : (c.sourcePath == q) = true := beq_iff_eq.mpr (hca2.trans hb2)
      exact absurd (List.any_eq_true.mpr ⟨c, hc, hcq⟩) hany
    · intro r hr
      show r.rid < db.nextId + 1
      rcases List.mem_append.mp hr with hold | hnew
      · have := hbound r hold
        omega
      · rw [List.mem_singleton.mp hnew]
        exact Nat.lt_succ_self _

theorem scheduleFileDeletion_prow_iff (task : PyObj) (q : String) (now : Nat)
    (w : World) (p : String) (hne : q ≠ p) (x : DeleteRecord) :
    (x ∈ (scheduleFileDeletion task q now w).db.deleteQueue ∧ x.sourcePath = p) ↔
      (x ∈ w.db.deleteQueue ∧ x.sourcePath = p) := by
  unfold scheduleFileDeletion
  split
  · exact Iff.rfl
  · dsimp only
    split
    · exact Iff.rfl
    · exact addDeleteRecord_other_mem w.db (pyIdOf task) q _ _ _ p hne x

theorem scheduleFileDeletion_WF (task : PyObj) (q : String) (now : Nat)
    (w : World) (h : DbWF w.db) : DbWF (scheduleFileDeletion task q now w).db := by
  unfold scheduleFileDeletion
  split
  · exact h
  · dsimp only
    split
    · exact h
    · exact addDeleteRecord_WF _ _ _ _ _ _ h

theorem onFileSynced_fs (task : PyObj) (q result : String) (now : Nat)
    (w : World) : (onFileSynced task q result now w).fs = w.fs := by
  unfold onFileSynced
  cases hst : fsStat w.fs q with
  | none =>
      dsimp only
      split
      · exact scheduleFileDeletion_fs _ _ _ _
      · rfl
  | some m =>
      dsimp only
      split
      · exact scheduleFileDeletion_fs _ _ _ _
      · rfl

theorem onFileSynced_other (task : PyObj) (q result : String) (now : Nat)
    (w : World) (p tid2 : String) (hne : q ≠ p) :
    isFileSynced (onFileSynced task q result now w).db tid2 p =
      isFileSynced w.db tid2 p ∧
    ∀ x : DeleteRecord,
      ((x ∈ (onFileSynced task q result now w).db.deleteQueue ∧ x.sourcePath = p) ↔
        (x ∈ w.db.deleteQueue ∧ x.sourcePath = p)) := by
  have key1 : ∀ (dbx : Db) (row : CacheRow) (a b c : String) (d : Option String),
      row.path = q →
      isFileSynced (addHistoryRecord (upsertFileCache dbx row) a b c d) tid2 p =
        isFileSynced dbx tid2 p := by
    intro dbx row a b c d hrow
    rw [isFileSynced_eq_of_cache _ _ _ _ (addHistoryRecord_fileCache _ _ _ _ _)]
    exact isFileSynced_upsertFileCache_ne dbx row tid2 p (fun hh => hne (hrow ▸ hh).symm)
  unfold onFileSynced
  cases hst : fsStat w.fs q with
  | none =>
      dsimp only
      split
      · constructor
        · rw [isFileSynced_eq_of_cache _ _ _ _ (scheduleFileDeletion_fileCache task q now w)]
        · intro x
          exact scheduleFileDeletion_prow_iff task q now w p hne x
      · exact ⟨rfl, fun x => Iff.rfl⟩
  | some m =>
      dsimp only
      split
      · constructor
        · rw [isFileSynced_eq_of_cache _ _ _ _ (scheduleFileDeletion_fileCache task q now _)]
          exact key1 w.db _ _ _ _ _ rfl
        · intro x
          refine (scheduleFileDeletion_prow_iff task q now _ p hne x).trans ?_
          dsimp only
          rw [addHistoryRecord_deleteQueue, upsertFileCache_fileCache_sub]
      · constructor
        · exact key1 w.db _ _ _ _ _ rfl
        · intro x
          dsimp only
          rw [addHistoryRecord_deleteQueue, upsertFileCache_fileCache_sub]

theorem onFileSynced_WF (task : PyObj) (q result : String) (now : Nat)
    (w : World) (h : DbWF w.db) : DbWF (onFileSynced task q result now w).db := by
  have key2 : ∀ (row : CacheRow) (a b c : String) (d : Option String),
      DbWF (addHistoryRecord (upsertFileCache w.db row) a b c d) := by
    intro row a b c d
    refine DbWF_of_eq _ w.db ?_ ?_ h
    · exact (addHistoryRecord_deleteQueue _ _ _ _ _).trans (upsertFileCache_fileCache_sub _ _)
    · exact (addHistoryRecord_nextId _ _ _ _ _).trans (upsertFileCache_nextId _ _)
  unfold onFileSynced
  cases hst : fsStat w.fs q with
  | none =>
      dsimp only
      split
      · exact scheduleFileDeletion_WF _ _ _ _ h
      · exact h
  | some m =>
      dsimp only
      split
      · exact scheduleFileDeletion_WF _ _ _ _ (key2 _ _ _ _ _)
      · exact key2 _ _ _ _ _

theorem runSyncOutcomes_fs (task : PyObj) (events : List FileEvent) (w : World) :
    (runSyncOutcomes task events w).fs = w.fs := by
  induction events generalizing w with
  | nil => rfl
  | cons e rest ih =>
      exact (ih (onFileSynced task e.path e.result e.time w)).trans
        (onFileSynced_fs task e.path e.result e.time w)

theorem runSyncOutcomes_WF (task : PyObj) (events : List FileEvent) (w : World)
    (h : DbWF w.db) : DbWF (runSyncOutcomes task events w).db := by
  induction events generalizing w with
  | nil => exact h
  | cons e rest ih =>
      exact ih (onFileSynced task e.path e.result e.time w)
        (onFileSynced_WF task e.path e.result e.time w h)

theorem runSyncOutcomes_preserve (task : PyObj) (events : List FileEvent)
    (w : World) (p tid2 : String) (h : ∀ e ∈ events, e.path ≠ p) :
    isFileSynced (runSyncOutcomes task events w).db tid2 p =
      isFileSynced w.db tid2 p ∧
    ∀ x : DeleteRecord,
      ((x ∈ (runSyncOutcomes task events w).db.deleteQueue ∧ x.sourcePath = p) ↔
        (x ∈ w.db.deleteQueue ∧ x.sourcePath = p)) := by
  induction events generalizing w with
  | nil => exact ⟨rfl, fun x => Iff.rfl⟩
  | cons e rest ih =>
      obtain ⟨h1, h2⟩ := onFileSynced_other task e.path e.result e.time w p tid2
        (h e (List.mem_cons_self e rest))
      obtain ⟨ih1, ih2⟩ := ih (onFileSynced task e.path e.result e.time w)
        (fun y hy => h y (List.mem_cons_of_mem e hy))
      exact ⟨ih1.trans h1, fun x => (ih2 x).trans (h2 x)⟩

theorem removeDeleteRecordsById_WF (db : Db) (ids : List Nat) (h : DbWF db) :
    DbWF (removeDeleteRecordsById db ids) := by
  obtain ⟨hrid, hpath, hbound⟩ := h
  unfold removeDeleteRecordsById
  split
  · exact ⟨hrid, hpath, hbound⟩
  · refine ⟨?_, ?_, ?_⟩
    · exact List.Nodup.sublist
        (List.Sublist.map _ (List.filter_sublist _)) hrid
    · exact List.Nodup.sublist
        (List.Sublist.map _ (List.filter_sublist _)) hpath
    · intro r hr
      exact hbound r (List.mem_of_mem_filter hr)

theorem processDeleteQueue_WF (task : PyObj) (now : Nat) (w : World)
    (h : DbWF w.db) : DbWF (processDeleteQueueForTask task now w).db := by
  set tid := pyIdOf task with htid
  set acc0 : DrainAcc := ⟨w, [], []⟩ with hacc0
  set acc := (getExpiredRecords w.db tid now).foldl (drainStep tid now) acc0 with hacc
  have hfin : processDeleteQueueForTask task now w =
      { acc.w with db := removeDeleteRecordsById acc.w.db acc.deletedIds } := rfl
  rw [hfin]
  have hql : acc.w.db.deleteQueue = w.db.deleteQueue := by
    rw [hacc]
    exact (drainFold_queue tid now _ acc0).trans rfl
  have hnl : acc.w.db.nextId = w.db.nextId := by
    rw [hacc]
    exact (drainFold_nextId tid now _ acc0).trans rfl
  show DbWF (removeDeleteRecordsById acc.w.db acc.deletedIds)
  exact removeDeleteRecordsById_WF _ _ (DbWF_of_eq acc.w.db w.db hql hnl h)

theorem onFileSynced_success_establishes (task : PyObj) (p : String)
    (te tPost : Nat) (w : World) (meta : FileMeta)
    (hsrc : (pyGetattr task "delete_source" (PyVal.bool false)).truthy = true)
    (hdelay : delayDaysOf task = 0)
    (hstat : fsStat w.fs p = some meta)
    (hbase : (if timeBaseOf task = "FILE_CREATE" then meta.ctime else te) ≤ tPost) :
    isFileSynced (onFileSynced task p "Success" te w).db (pyIdOf task) p = true ∧
    (∃ x ∈ (onFileSynced task p "Success" te w).db.deleteQueue,
       x.sourcePath = p ∧ x.taskId = pyIdOf task ∧ x.deleteAt ≤ tPost) ∧
    (∀ x ∈ (onFileSynced task p "Success" te w).db.deleteQueue,
       x.sourcePath = p → x.taskId = pyIdOf task ∧ x.deleteAt ≤ tPost) := by
  have hexp : onFileSynced task p "Success" te w =
      scheduleFileDeletion task p te
        ⟨addHistoryRecord (upsertFileCache w.db
            ⟨pyIdOf task, p, meta.size, meta.mtime, "SYNCED", some te,
             Option.none, Option.none⟩)
          (pyIdOf task) p "SYNCED" Option.none, w.fs⟩ := by
    unfold onFileSynced
    rw [hstat]
    rfl
  rw [hexp]
  set row : CacheRow :=
    ⟨pyIdOf task, p, meta.size, meta.mtime, "SYNCED", some te,
     Option.none, Option.none⟩ with hrow
  set W1 : World :=
    ⟨addHistoryRecord (upsertFileCache w.db row) (pyIdOf task) p "SYNCED"
       Option.none, w.fs⟩ with hW1
  refine ⟨?_, ?_⟩
  · rw [isFileSynced_eq_of_cache _ _ _ _ (scheduleFileDeletion_fileCache task p te W1)]
    show isFileSynced (addHistoryRecord (upsertFileCache w.db row) (pyIdOf task) p
      "SYNCED" Option.none) (pyIdOf task) p = true
    rw [isFileSynced_eq_of_cache _ _ _ _ (addHistoryRecord_fileCache _ _ _ _ _)]
    exact isFileSynced_upsertFileCache_self w.db row rfl
  · have hb2 : (if timeBaseOf task = "FILE_CREATE" then
        (fsStat W1.fs p).map FileMeta.ctime else some te) =
        some (if timeBaseOf task = "FILE_CREATE" then meta.ctime else te) := by
      by_cases hfc : timeBaseOf task = "FILE_CREATE"
      · rw [if_pos hfc, if_pos hfc]
        have hst1 : fsStat W1.fs p = some meta := hstat
        rw [hst1]
        rfl
      · rw [if_neg hfc, if_neg hfc]
    have hsched : scheduleFileDeletion task p te W1 =
        ⟨addDeleteRecord W1.db (pyIdOf task) p
            ((if timeBaseOf task = "FILE_CREATE" then meta.ctime else te) +
              (delayDaysOf task).toNat * secondsPerDay)
            ((pyGetattr task "delete_parent" (PyVal.bool false)).truthy)
            (timeBaseOf task), W1.fs⟩ := by
      unfold scheduleFileDeletion
      rw [if_neg (show
        ¬((!(pyGetattr task "delete_source" (PyVal.bool false)).truthy) = true) by
          rw [hsrc]; decide)]
      dsimp only
      rw [hb2]
    rw [hsched]
    have hda : (if timeBaseOf task = "FILE_CREATE" then meta.ctime else te) +
        (delayDaysOf task).toNat * secondsPerDay ≤ tPost := by
      rw [hdelay]
      simpa using hbase
    obtain ⟨hex, hall⟩ := addDeleteRecord_self_mem W1.db (pyIdOf task) p
      ((if timeBaseOf task = "FILE_CREATE" then meta.ctime else te) +
        (delayDaysOf task).toNat * secondsPerDay)
      ((pyGetattr task "delete_parent" (PyVal.bool false)).truthy) (timeBaseOf task)
    constructor
    · obtain ⟨x, hx, hxp, hxt, hxd⟩ := hex
      refine ⟨x, hx, hxp, hxt, ?_⟩
      rw [hxd]
      exact hda
    · intro x hx hxp
      obtain ⟨hxt, hxd⟩ := hall x hx hxp
      refine ⟨hxt, ?_⟩
      rw [hxd]
      exact hda

theorem runSyncOutcomes_success_state (task : PyObj) (events : List FileEvent)
    (w : World) (p : String) (te tPost : Nat) (meta : FileMeta)
    (hsrc : (pyGetattr task "delete_source" (PyVal.bool false)).truthy = true)
    (hdelay : delayDaysOf task = 0)
    (hnodup : (events.map (fun e => e.path)).Nodup)
    (hev : (⟨p, "Success", te⟩ : FileEvent) ∈ events)
    (hstat : fsStat w.fs p = some meta)
    (hbase : (if timeBaseOf task = "FILE_CREATE" then meta.ctime else te) ≤ tPost) :
    isFileSynced (runSyncOutcomes task events w).db (pyIdOf task) p = true ∧
    (∃ x ∈ (runSyncOutcomes task events w).db.deleteQueue,
       x.sourcePath = p ∧ x.taskId = pyIdOf task ∧ x.deleteAt ≤ tPost) ∧
    (∀ x ∈ (runSyncOutcomes task events w).db.deleteQueue,
       x.sourcePath = p → x.taskId = pyIdOf task ∧ x.deleteAt ≤ tPost) := by
  induction events generalizing w with
  | nil => exact absurd hev (List.not_mem_nil _)
  | cons e rest ih =>
      have hstep : runSyncOutcomes task (e :: rest) w =
          runSyncOutcomes task rest (onFileSynced task e.path e.result e.time w) := rfl
      rw [hstep]
      rw [List.map_cons, List.nodup_cons] at hnodup
      obtain ⟨hxnot, hnodup2⟩ := hnodup
      by_cases hex : e = (⟨p, "Success", te⟩ : FileEvent)
      · subst hex
        obtain ⟨e1, e2, e3⟩ := onFileSynced_success_establishes task p te tPost w
          meta hsrc hdelay hstat hbase
        have hrest : ∀ y ∈ rest, y.path ≠ p := by
          intro y hy hh
          exact hxnot (hh ▸ List.mem_map_of_mem (fun ev => ev.path) hy)
        obtain ⟨hp1, hp2⟩ := runSyncOutcomes_preserve task rest
          (onFileSynced task p "Success" te w) p (pyIdOf task) hrest
        refine ⟨hp1.trans e1, ?_, ?_⟩
        · obtain ⟨x, hx, hxp, hxt, hxd⟩ := e2
          exact ⟨x, ((hp2 x).mpr ⟨hx, hxp⟩).1, hxp, hxt, hxd⟩
        · intro x hx hxp
          exact e3 x ((hp2 x).mp ⟨hx, hxp⟩).1 hxp
      · have hevr : (⟨p, "Success", te⟩ : FileEvent) ∈ rest := by
          rcases List.mem_cons.mp hev with h1 | h2
          · exact absurd h1.symm hex
          · exact h2
        have hep : e.path ≠ p := by
          intro hh
          apply hxnot
          rw [hh]
          exact List.mem_map_of_mem (fun ev => ev.path) hevr
        have hstat2 : fsStat (onFileSynced task e.path e.result e.time w).fs p =
            some meta := by
          rw [onFileSynced_fs]
          exact hstat
        exact ih (onFileSynced task e.path e.result e.time w) hnodup2 hevr hstat2

/-- Claim C1 counterexample: with source deletion enabled and `delay_days = 0`,
the per-file outcome callback for a `Skipped (Unchanged)` file also creates a
delete record (scheduler.py line 188 schedules deletion for both `Success` and
`Skipped (Unchanged)`), but that callback writes cache status SKIPPED, so the
post-run drain's SYNCED verification guard (scheduler.py line 240) leaves the
record in the queue and the source file on disk — the record created during
the run is not discharged in the same run's drain. -/
theorem delete_record_unchanged_not_discharged :
    (pyGetattr ([("id", PyVal.str "t1"), ("delete_source", PyVal.bool true)] : PyObj)
        "delete_source" (PyVal.bool false)).truthy = true ∧
    delayDaysOf
      ([("id", PyVal.str "t1"), ("delete_source", PyVal.bool true)] : PyObj) = 0 ∧
    (⟨⟨[], 1, [], []⟩, [("/s/a.mkv", ⟨100, 5, 3⟩)]⟩ : World).db.deleteQueue = [] ∧
    (∃ r ∈ (executeSyncTask
        ([("id", PyVal.str "t1"), ("delete_source", PyVal.bool true)] : PyObj) 5
        [⟨"/s/a.mkv", "Skipped (Unchanged)", 10⟩] 50
        ⟨⟨[], 1, [], []⟩, [("/s/a.mkv", ⟨100, 5, 3⟩)]⟩).db.deleteQueue,
       r.sourcePath = "/s/a.mkv" ∧ r.deleteAt ≤ 50) ∧
    fsStat (executeSyncTask
        ([("id", PyVal.str "t1"), ("delete_source", PyVal.bool true)] : PyObj) 5
        [⟨"/s/a.mkv", "Skipped (Unchanged)", 10⟩] 50
        ⟨⟨[], 1, [], []⟩, [("/s/a.mkv", ⟨100, 5, 3⟩)]⟩).fs "/s/a.mkv" =
      some ⟨100, 5, 3⟩ := by
  decide

/-- Claim C1 (amended): for a task with source deletion enabled,
`delete_parent` unset, and `delay_days = 0`, a delete record created by a
`Success` outcome callback during a sync run — for a nonempty path whose file
the pre-run drain left stat-able, with the run's per-file paths distinct and
the record's base time at most the post-run drain instant — is discharged in
the post-run drain of that same run: the source file is removed and no record
for that path remains in the queue.  (A record created by a
`Skipped (Unchanged)` outcome is not discharged, since its cache status is
SKIPPED, not SYNCED.) -/
theorem sync_success_record_discharged_same_run (task : PyObj) (tPre : Nat)
    (events : List FileEvent) (tPost : Nat) (w0 : World) (p : String) (te : Nat)
    (meta : FileMeta)
    (hsrc : (pyGetattr task "delete_source" (PyVal.bool false)).truthy = true)
    (hpar : (pyGetattr task "delete_parent" (PyVal.bool false)).truthy = false)
    (hdelay : delayDaysOf task = 0)
    (hwf : DbWF w0.db)
    (hnodup : (events.map (fun e => e.path)).Nodup)
    (hev : (⟨p, "Success", te⟩ : FileEvent) ∈ events)
    (hp : p ≠ "")
    (hstat : fsStat (processDeleteQueueForTask task tPre w0).fs p = some meta)
    (hbase : (if timeBaseOf task = "FILE_CREATE" then meta.ctime else te) ≤ tPost) :
    fsStat (executeSyncTask task tPre events tPost w0).fs p = Option.none ∧
    ∀ x ∈ (executeSyncTask task tPre events tPost w0).db.deleteQueue,
      x.sourcePath ≠ p := by
  have hwf1 : DbWF (processDeleteQueueForTask task tPre w0).db :=
    processDeleteQueue_WF task tPre w0 hwf
  obtain ⟨hsync, hexists, hall⟩ := runSyncOutcomes_success_state task events
    (processDeleteQueueForTask task tPre w0) p te tPost meta hsrc hdelay hnodup hev
    hstat hbase
  have hwf2 : DbWF (runSyncOutcomes task events
      (processDeleteQueueForTask task tPre w0)).db :=
    runSyncOutcomes_WF task events _ hwf1
  obtain ⟨hrid2, hpath2, hbound2⟩ := hwf2
  have hfin0 : executeSyncTask task tPre events tPost w0 =
      processDeleteQueueForTask task tPost
        (runSyncOutcomes task events (processDeleteQueueForTask task tPre w0)) := rfl
  rw [hfin0]
  set W2 := runSyncOutcomes task events (processDeleteQueueForTask task tPre w0)
    with hW2
  set expired := getExpiredRecords W2.db (pyIdOf task) tPost with hexp
  set acc0 : DrainAcc := ⟨W2, [], []⟩ with hacc0
  set acc := expired.foldl (drainStep (pyIdOf task) tPost) acc0 with hacc
  have hfin : processDeleteQueueForTask task tPost W2 =
      { acc.w with db := removeDeleteRecordsById acc.w.db acc.deletedIds } := rfl
  rw [hfin]
  have hdist : (expired.map (fun x => x.sourcePath)).Nodup := by
    rw [hexp]
    exact getExpiredRecords_paths_nodup W2.db (pyIdOf task) tPost hpath2
  obtain ⟨x0, hx0mem, hx0p, hx0t, hx0d⟩ := hexists
  have hx0e : x0 ∈ expired := by
    rw [hexp]
    exact (mem_getExpiredRecords W2.db (pyIdOf task) tPost x0).mpr ⟨hx0mem, hx0t, hx0d⟩
  have hx0ne : x0.sourcePath ≠ "" := by
    rw [hx0p]
    exact hp
  have hg0 : isFileSynced acc0.w.db (pyIdOf task) x0.sourcePath = true := by
    rw [hx0p]
    exact hsync
  have hfs : fsStat acc.w.fs x0.sourcePath = Option.none := by
    rw [hacc]
    exact drainFold_fs_none (pyIdOf task) tPost expired acc0 x0 hdist hx0e hx0ne hg0
  have hids : acc.deletedIds =
      (expired.filter (fun x =>
        !(x.sourcePath == "") && isFileSynced W2.db (pyIdOf task) x.sourcePath)).map
        (fun x => x.rid) := by
    rw [hacc]
    exact (drainFold_ids (pyIdOf task) tPost expired acc0 hdist).trans rfl
  have hql : acc.w.db.deleteQueue = W2.db.deleteQueue := by
    rw [hacc]
    exact (drainFold_queue (pyIdOf task) tPost expired acc0).trans rfl
  constructor
  · show fsStat acc.w.fs p = Option.none
    rw [← hx0p]
    exact hfs
  · intro x hx hxp
    obtain ⟨hxraw, hxnotid⟩ :=
      (removeDeleteRecordsById_mem acc.w.db acc.deletedIds x).mp hx
    have hxw2 : x ∈ W2.db.deleteQueue := hql ▸ hxraw
    obtain ⟨hxt, hxd⟩ := hall x hxw2 hxp
    have hxe : x ∈ expired := by
      rw [hexp]
      exact (mem_getExpiredRecords W2.db (pyIdOf task) tPost x).mpr ⟨hxw2, hxt, hxd⟩
    have hgx : (!(x.sourcePath == "") &&
        isFileSynced W2.db (pyIdOf task) x.sourcePath) = true := by
      rw [hxp]
      rw [Bool.and_eq_true]
      refine ⟨?_, hsync⟩
      rw [Bool.not_eq_true']
      exact beq_eq_false_iff_ne.mpr hp
    apply hxnotid
    rw [hids]
    have hxf : x ∈ expired.filter (fun y =>
        !(y.sourcePath == "") && isFileSynced W2.db (pyIdOf task) y.sourcePath) :=
      List.mem_filter.mpr ⟨hxe, hgx⟩
    exact List.mem_map_of_mem (fun y => y.rid) hxf

theorem sync_success_record_discharged_same_run_witness :
    (pyGetattr ([("id", PyVal.str "t1"), ("delete_source", PyVal.bool true)] : PyObj)
        "delete_source" (PyVal.bool false)).truthy = true ∧
    (pyGetattr ([("id", PyVal.str "t1"), ("delete_source", PyVal.bool true)] : PyObj)
        "delete_parent" (PyVal.bool false)).truthy = false ∧
    delayDaysOf
      ([("id", PyVal.str "t1"), ("delete_source", PyVal.bool true)] : PyObj) = 0 ∧
    DbWF (⟨[], 1, [], []⟩ : Db) ∧
    (([⟨"/s/a.mkv", "Success", 10⟩] : List FileEvent).map (fun e => e.path)).Nodup ∧
    (⟨"/s/a.mkv", "Success", 10⟩ : FileEvent) ∈
      ([⟨"/s/a.mkv", "Success", 10⟩] : List FileEvent) ∧
    "/s/a.mkv" ≠ "" ∧
    fsStat (processDeleteQueueForTask
        ([("id", PyVal.str "t1"), ("delete_source", PyVal.bool true)] : PyObj) 5
        ⟨⟨[], 1, [], []⟩, [("/s/a.mkv", ⟨100, 5, 3⟩)]⟩).fs "/s/a.mkv" =
      some ⟨100, 5, 3⟩ ∧
    (if timeBaseOf ([("id", PyVal.str "t1"), ("delete_source", PyVal.bool true)] : PyObj) =
        "FILE_CREATE" then (⟨100, 5, 3⟩ : FileMeta).ctime else 10) ≤ 50 ∧
    (fsStat (executeSyncTask
        ([("id", PyVal.str "t1"), ("delete_source", PyVal.bool true)] : PyObj) 5
        [⟨"/s/a.mkv", "Success", 10⟩] 50
        ⟨⟨[], 1, [], []⟩, [("/s/a.mkv", ⟨100, 5, 3⟩)]⟩).fs "/s/a.mkv" = Option.none ∧
     ∀ x ∈ (executeSyncTask
        ([("id", PyVal.str "t1"), ("delete_source", PyVal.bool true)] : PyObj) 5
        [⟨"/s/a.mkv", "Success", 10⟩] 50
        ⟨⟨[], 1, [], []⟩, [("/s/a.mkv", ⟨100, 5, 3⟩)]⟩).db.deleteQueue,
       x.sourcePath ≠ "/s/a.mkv") :=
  ⟨by decide, by decide, by decide, by decide, by decide, by decide, by decide,
   by decide, by decide,
   sync_success_record_discharged_same_run
     ([("id", PyVal.str "t1"), ("delete_source", PyVal.bool true)] : PyObj) 5
     [⟨"/s/a.mkv", "Success", 10⟩] 50
     ⟨⟨[], 1, [], []⟩, [("/s/a.mkv", ⟨100, 5, 3⟩)]⟩ "/s/a.mkv" 10 ⟨100, 5, 3⟩
     (by decide) (by decide) (by decide) (by decide) (by decide) (by decide)
     (by decide) (by decide) (by decide)⟩
